import Mathlib

/-!
FORD: connection table and lock-table memory server.

A shallow embedding of

* `src/core/connection/qp_manager.h` (class `QPManager`),
* `src/memory_pool/lock_table_server/lock_table_server.cc`
  (class `LockTableServer` and `main`), and
* `src/workload/tatp/tatp_db.cc` (`TATP::SelectUniqueItem`),

followed by the properties proved about them.

Conventions.  A pointer is a natural number, the null pointer being `0`.
`node_id_t` is the C `int`, so node ids are integers.  Bytes are natural
numbers below 256 and multi-byte integers are stored least significant byte
first, as on the x86-64 hosts the system runs on.
-/

namespace Ford

/-! ## `QPManager` (qp_manager.h) -/

/-- The C type `RCQP*`: an address, with `0` the null pointer. -/
abbrev RCQPPtr := Nat

/-- The null pointer. -/
def nullptr : RCQPPtr := 0

/-- The data members of `class QPManager`, in declaration order
(qp_manager.h lines 44-56).  Each table is declared as
`RCQP* t[MAX_REMOTE_NODE_NUM]`. -/
structure QPManager where
  data_qps : List RCQPPtr
  log_qps : List RCQPPtr
  page_table_qps : List RCQPPtr
  page_ringbuffer_qps : List RCQPPtr
  lock_table_qps : List RCQPPtr
  index_qps : List RCQPPtr
  global_tid : Nat
  deriving DecidableEq, Repr

/-- The six roles a memory region can have, one per connection table. -/
inductive Role where
  | data
  | log
  | page_table
  | page_ringbuffer
  | lock_table
  | index
  deriving DecidableEq, Repr

namespace QPManager

/-- Class invariant given by the member declarations: every table has exactly
`MAX_REMOTE_NODE_NUM` slots.  The constant is defined outside the files at
hand and is a parameter here. -/
def wf (MAX_REMOTE_NODE_NUM : Nat) (qm : QPManager) : Prop :=
  qm.data_qps.length = MAX_REMOTE_NODE_NUM ∧
  qm.log_qps.length = MAX_REMOTE_NODE_NUM ∧
  qm.page_table_qps.length = MAX_REMOTE_NODE_NUM ∧
  qm.page_ringbuffer_qps.length = MAX_REMOTE_NODE_NUM ∧
  qm.lock_table_qps.length = MAX_REMOTE_NODE_NUM ∧
  qm.index_qps.length = MAX_REMOTE_NODE_NUM

instance (n : Nat) (qm : QPManager) : Decidable (qm.wf n) := by
  unfold wf; infer_instance

/-- The constructor `QPManager(t_id_t global_tid)`: every table is
brace-initialised with `{nullptr}`, which nulls every slot. -/
def new (MAX_REMOTE_NODE_NUM : Nat) (global_tid : Nat) : QPManager where
  data_qps := List.replicate MAX_REMOTE_NODE_NUM nullptr
  log_qps := List.replicate MAX_REMOTE_NODE_NUM nullptr
  page_table_qps := List.replicate MAX_REMOTE_NODE_NUM nullptr
  page_ringbuffer_qps := List.replicate MAX_REMOTE_NODE_NUM nullptr
  lock_table_qps := List.replicate MAX_REMOTE_NODE_NUM nullptr
  index_qps := List.replicate MAX_REMOTE_NODE_NUM nullptr
  global_tid := global_tid

/-- The pointer-sized slots of a `QPManager` object as they lie in memory:
the six tables one after the other, in declaration order, and then the slot
of the last member `global_tid` (qp_manager.h line 56).  The class has no
virtual member, so `data_qps` starts the object.  `t_id_t` is declared outside
the files at hand; the slot of `global_tid` is read as the thread id,
zero-extended to the width of a pointer. -/
def storage (qm : QPManager) : List RCQPPtr :=
  qm.data_qps ++ (qm.log_qps ++ (qm.page_table_qps ++
    (qm.page_ringbuffer_qps ++ (qm.lock_table_qps ++ (qm.index_qps ++ [qm.global_tid])))))

/-- The C subscript `t[node_id]` on the member table that starts at slot
`base` of the object.  C performs no bounds check: the slot read is
`base + node_id` of the object storage, whichever member that falls into.
A read that leaves the object altogether yields whatever lies there, which
the environment `stray` supplies. -/
def subscript (qm : QPManager) (stray : Int → RCQPPtr) (base : Nat)
    (node_id : Int) : RCQPPtr :=
  let slot : Int := (base : Int) + node_id
  if 0 ≤ slot ∧ slot < (qm.storage.length : Int) then
    qm.storage.getD slot.toNat nullptr
  else
    stray slot

/-- First slot of `data_qps` in the object. -/
def dataBase (_qm : QPManager) : Nat := 0

/-- First slot of `log_qps` in the object: right after `data_qps`. -/
def logBase (qm : QPManager) : Nat := qm.data_qps.length

/-- Source: `RCQP* GetRemoteDataQPWithNodeID(const node_id_t node_id) const`:
`return data_qps[node_id];` -/
def GetRemoteDataQPWithNodeID (qm : QPManager) (stray : Int → RCQPPtr)
    (node_id : Int) : RCQPPtr :=
  qm.subscript stray qm.dataBase node_id

/-- Source: `RCQP* GetRemoteLogQPWithNodeID(const node_id_t node_id) const`:
`return log_qps[node_id];` -/
def GetRemoteLogQPWithNodeID (qm : QPManager) (stray : Int → RCQPPtr)
    (node_id : Int) : RCQPPtr :=
  qm.subscript stray qm.logBase node_id

/-- One iteration of the loop body of `GetRemoteDataQPsWithNodeIDs`:
`RCQP* qp = data_qps[node_id]; if (qp) qps.push_back(qp);` -/
def pushIfConnected (qm : QPManager) (stray : Int → RCQPPtr)
    (qps : List RCQPPtr) (node_id : Int) : List RCQPPtr :=
  let qp := qm.subscript stray qm.dataBase node_id
  if qp ≠ nullptr then qps ++ [qp] else qps

/-- Source: `void GetRemoteDataQPsWithNodeIDs(const std::vector<node_id_t>* node_ids,
std::vector<RCQP*>& qps)`: the range-for over `*node_ids`.  The method is not
`const`, so the manager is threaded through; `qps` is the in/out vector. -/
def GetRemoteDataQPsWithNodeIDs (qm : QPManager) (stray : Int → RCQPPtr)
    (node_ids : List Int) (qps : List RCQPPtr) : QPManager × List RCQPPtr :=
  (qm, node_ids.foldl (qm.pushIfConnected stray) qps)

/-- Modelled from the spec: the store a role's builder performs for a remote
node offering that role, "storing the handle at `table[role][node_id]`".  The
builders (`BuildDataNodeQPConnection` and its siblings) are declared in
qp_manager.h and defined in qp_manager.cc, which is not among the files at
hand. -/
def store (qm : QPManager) (role : Role) (node_id : Int) (qp : RCQPPtr) : QPManager :=
  match role with
  | .data => { qm with data_qps := qm.data_qps.set node_id.toNat qp }
  | .log => { qm with log_qps := qm.log_qps.set node_id.toNat qp }
  | .page_table => { qm with page_table_qps := qm.page_table_qps.set node_id.toNat qp }
  | .page_ringbuffer =>
    { qm with page_ringbuffer_qps := qm.page_ringbuffer_qps.set node_id.toNat qp }
  | .lock_table => { qm with lock_table_qps := qm.lock_table_qps.set node_id.toNat qp }
  | .index => { qm with index_qps := qm.index_qps.set node_id.toNat qp }

/-- A build phase: a sequence of stores `(role, node_id, handle)`, performed
in order. -/
def storeAll (qm : QPManager) (stores : List (Role × Int × RCQPPtr)) : QPManager :=
  stores.foldl (fun m s => m.store s.1 s.2.1 s.2.2) qm

/-- The handle most recently stored for `(role, node_id)` in a sequence of
stores, `init` if there is none. -/
def lastStored (role : Role) (node_id : Int) (init : RCQPPtr)
    (stores : List (Role × Int × RCQPPtr)) : RCQPPtr :=
  stores.foldl (fun acc s => if s.1 = role ∧ s.2.1 = node_id then s.2.2 else acc) init

end QPManager

/-! ## `LockTableServer` (lock_table_server.cc): the bootstrap message -/

/-- The `w` least significant bytes of `n`, least significant first: the
object representation of a `w`-byte unsigned integer holding `n`. -/
def leBytes : Nat → Nat → List Nat
  | 0, _ => []
  | w + 1, n => (n % 256) :: leBytes w (n / 256)

/-- The unsigned integer whose object representation is the given bytes. -/
def leValue : List Nat → Nat
  | [] => 0
  | b :: bs => b + 256 * leValue bs

/-- Two's complement: the unsigned `w`-byte pattern of a signed integer. -/
def toUnsigned (w : Nat) (x : Int) : Nat := (x % (2 : Int) ^ (8 * w)).toNat

/-- Two's complement: the signed integer a `w`-byte pattern stands for. -/
def toSigned (w : Nat) (n : Nat) : Int :=
  if 2 * n < 2 ^ (8 * w) then (n : Int) else (n : Int) - (2 : Int) ^ (8 * w)

/-- Source: `sizeof(node_id_t)`.  `node_id_t` is declared outside the files at hand;
the code treats it as the C `int` (it is compared with 0 and taken from
`get_int64()` by a narrowing cast), four bytes on the target. -/
def sizeof_node_id_t : Nat := 4

/-- Source: `sizeof(MEM_STORE_META_END)`: the constant is a `uint64_t`, stored through
a `uint64_t*` at the end of the message. -/
def sizeof_MEM_STORE_META_END : Nat := 8

/-- Object representation of a `node_id_t`. -/
def nodeIdBytes (machine_id : Int) : List Nat :=
  leBytes sizeof_node_id_t (toUnsigned sizeof_node_id_t machine_id)

/-- Modelled from the spec: struct `LockTableMeta`, whose declaration is not
among the files at hand.  The spec's Descriptor is the fixed-size record
`{base address, bucket count, per-bucket element size, base byte offset}`;
the constructor call in `PrepareLockTableMeta` passes a `uint64_t` address,
the bucket count, the node size and the base offset (an `offset_t`, signed),
in this order. -/
structure LockTableMeta where
  lock_table_ptr : Nat
  bucket_num : Nat
  node_size : Nat
  base_off : Int
  deriving DecidableEq, Repr

/-- Modelled from the spec: `sizeof(LockTableMeta)`, four 8-byte fields. -/
def sizeof_LockTableMeta : Nat := 32

/-- Modelled from the spec: the object representation of a `LockTableMeta`,
its four 8-byte fields in declaration order without padding. -/
def LockTableMeta.bytes (m : LockTableMeta) : List Nat :=
  leBytes 8 m.lock_table_ptr ++ (leBytes 8 m.bucket_num ++
    (leBytes 8 m.node_size ++ leBytes 8 (toUnsigned 8 m.base_off)))

/-- The values a `LockTableMeta` can hold: every field fits its 8 bytes. -/
def LockTableMeta.inRange (m : LockTableMeta) : Prop :=
  m.lock_table_ptr < 2 ^ 64 ∧ m.bucket_num < 2 ^ 64 ∧ m.node_size < 2 ^ 64 ∧
    -(2 : Int) ^ 63 ≤ m.base_off ∧ m.base_off < (2 : Int) ^ 63

/-- Modelled from the spec: what the server reads from the loaded
`LockTableStore` (a class defined outside the files at hand) through
`GetAddrPtr()`, `GetBucketNum()`, `GetLockTableNodeSize()` and `GetBaseOff()`:
"registered base address, bucket count, per-element size, and base byte
offset". -/
structure LockTableStore where
  GetAddrPtr : Nat
  GetBucketNum : Nat
  GetLockTableNodeSize : Nat
  GetBaseOff : Int
  deriving DecidableEq, Repr

/-- Source: `malloc(n)`: a fresh block of `n` bytes with indeterminate contents,
which `junk` supplies. -/
def malloc (junk : Nat → Nat) (n : Nat) : List Nat := (List.range n).map junk

/-- Store the bytes `src` into the block `buf` from offset `off` on.  The
block keeps its size; this is the effect of `*((T*)p) = v` and of
`memcpy(p, src, len)` for `p = buf + off`. -/
def writeAt : List Nat → Nat → List Nat → List Nat
  | [], _, _ => []
  | b :: buf, 0, [] => b :: buf
  | _ :: buf, 0, x :: src => x :: writeAt buf 0 src
  | b :: buf, off + 1, src => b :: writeAt buf off src

/-- Source: `void LockTableServer::PrepareLockTableMeta(node_id_t machine_id,
char** hash_meta_buffer, size_t& total_meta_size)`, reading the member
`locktable_store`.  Returns the two out-parameters
`(*hash_meta_buffer, total_meta_size)`. -/
def PrepareLockTableMeta (MEM_STORE_META_END : Nat) (junk : Nat → Nat)
    (locktable_store : LockTableStore) (machine_id : Int) : List Nat × Nat :=
  let lock_table_meta : LockTableMeta :=
    ⟨locktable_store.GetAddrPtr, locktable_store.GetBucketNum,
      locktable_store.GetLockTableNodeSize, locktable_store.GetBaseOff⟩
  let hash_meta_len := sizeof_LockTableMeta
  let total_meta_size := sizeof_node_id_t + hash_meta_len + sizeof_MEM_STORE_META_END
  let hash_meta_buffer := malloc junk total_meta_size
  let local_buf := 0
  let hash_meta_buffer := writeAt hash_meta_buffer local_buf (nodeIdBytes machine_id)
  let local_buf := local_buf + sizeof_node_id_t
  let hash_meta_buffer :=
    writeAt hash_meta_buffer local_buf (lock_table_meta.bytes.take hash_meta_len)
  let local_buf := local_buf + hash_meta_len
  let hash_meta_buffer := writeAt hash_meta_buffer local_buf (leBytes 8 MEM_STORE_META_END)
  (hash_meta_buffer, total_meta_size)

/-- Modelled from the spec: the compute node's side of the bootstrap, which is
not among the files at hand: "read exactly the total message length, verify
the trailing sentinel equals the magic constant (reject/fail the bootstrap
otherwise)", the message being laid out as node id, descriptor, 8-byte
sentinel.  Returns the node id and the descriptor, or `none` on rejection. -/
def ParseLockTableMeta (MEM_STORE_META_END : Nat) (msg : List Nat) :
    Option (Int × LockTableMeta) :=
  if msg.length = sizeof_node_id_t + sizeof_LockTableMeta + sizeof_MEM_STORE_META_END then
    let node_id := toSigned sizeof_node_id_t (leValue (msg.take sizeof_node_id_t))
    let body := (msg.drop sizeof_node_id_t).take sizeof_LockTableMeta
    let sentinel := leValue (msg.drop (sizeof_node_id_t + sizeof_LockTableMeta))
    if sentinel = MEM_STORE_META_END % 2 ^ 64 then
      some (node_id,
        ⟨leValue (body.take 8), leValue ((body.drop 8).take 8),
          leValue ((body.drop 16).take 8), toSigned 8 (leValue (body.drop 24))⟩)
    else none
  else none

/-! ## `LockTableServer`: arithmetic on `double`

`lock_table_buf_size * 0.75` and `mem_size * 0.75 / PAGE_SIZE` are computed in
IEEE-754 binary64 with round-to-nearest-even.  All values involved are
non-negative multiples of 1/4, so a `double` is represented by the natural
number of quarters (or of units) it holds, and rounding a product to the 53-bit
significand is rounding that natural number to 53 significant bits (scaling by
a power of two changes the exponent only). -/

/-- Round a natural number to the nearest one with at most 53 significant
bits, ties to the even significand: the binary64 value nearest to `n`. -/
def roundToDouble (n : Nat) : Nat :=
  if n < 2 ^ 53 then n
  else
    let ulp := 2 ^ (Nat.log2 n - 52)
    let q := n / ulp
    let r := n % ulp
    if 2 * r < ulp then q * ulp
    else if ulp < 2 * r then (q + 1) * ulp
    else if q % 2 = 0 then q * ulp
    else (q + 1) * ulp

/-- The conversion `size_t` to `double` (usual arithmetic conversions). -/
def size_t_to_double (n : Nat) : Nat := roundToDouble n

/-- The product `x * 0.75` for a `double` holding the integer `x`, as a number
of quarters: the exact product is `3 * x` quarters (0.75 is exactly 3/4),
rounded to binary64. -/
def mul_0_75 (x : Nat) : Nat := roundToDouble (3 * x)

/-- The conversion `double` to `offset_t` (`int64_t`) of a value given in
quarters: truncation toward zero; undefined when the result does not fit. -/
def double_to_offset_t (quarters : Nat) : Option Nat :=
  if quarters / 4 < 2 ^ 63 then some (quarters / 4) else none

/-- Modelled from the spec: the macro `PAGE_SIZE`, defined outside the files
at hand; the spec works with "a 4096-byte page size". -/
def PAGE_SIZE : Nat := 4096

/-- The quotient `y / PAGE_SIZE` of a `double` given in quarters, converted to
`int`.  Dividing by the power of two 4096 is exact in binary64, so the value is
`quarters / (4 * PAGE_SIZE)` as a rational; the conversion truncates toward
zero and is undefined when the result does not fit 32 bits. -/
def div_PAGE_SIZE_to_int (quarters : Nat) : Option Int :=
  if quarters / (4 * PAGE_SIZE) < 2 ^ 31 then some ((quarters / (4 * PAGE_SIZE) : Nat) : Int)
  else none

/-- Source: `offset_t reserve_start = lock_table_buf_size * 0.75;` in `AllocMem`. -/
def reserve_start (lock_table_buf_size : Nat) : Option Nat :=
  double_to_offset_t (mul_0_75 (size_t_to_double lock_table_buf_size))

/-- Source: `size_t mem_size = (size_t)1024 * 1024 * 1024 * mem_size_GB;` in `main`
(unsigned 64-bit arithmetic). -/
def mem_size_of (mem_size_GB : Nat) : Nat := (1024 * 1024 * 1024 * mem_size_GB) % 2 ^ 64

/-- Source: `int bucket_num = mem_size * 0.75 / PAGE_SIZE;` in `main`. -/
def bucket_num_of (mem_size : Nat) : Option Int :=
  div_PAGE_SIZE_to_int (mul_0_75 (size_t_to_double mem_size))

/-! ## `LockTableServer`: state, methods and `main` -/

/-- Modelled from the spec: the part of the RDMA control primitive
(`RdmaCtrl`, a library class) that the server drives: "device/port open,
buffer registration under a region id, and RC queue-pair create/destroy as
opaque operations". -/
structure RdmaCtrl where
  node_id : Int
  port : Int
  device_opened : Bool
  registered : List (Nat × Nat × Nat)
  deriving DecidableEq, Repr

/-- The data members of `LockTableServer` that lock_table_server.cc uses.
Pointers are addresses; `rdma_ctrl` (a `shared_ptr`) and `locktable_store`
are `none` while null. -/
structure LockTableServer where
  server_node_id : Int
  local_port : Int
  local_meta_port : Int
  lock_table_buf_size : Nat
  lock_table_bucket_buffer : Nat
  lock_table_reserve_buffer : Nat
  rdma_ctrl : Option RdmaCtrl
  locktable_store : Option LockTableStore
  deriving DecidableEq, Repr

/-- What a run of the server does, in program order: entries into the
methods of `LockTableServer` that `main` calls (first group) and the calls
those methods make (second group).  Of the heap allocations only that of the
lock-table buffer is traced. -/
inductive Event where
  | AllocMem
  | InitMem
  | InitRDMA
  | LoadLockTable (bucket_num : Int)
  | CleanLockTable
  | CleanQP
  | SendMeta (machine_id : Int) (compute_node_num : Nat)
  | Run
  | malloc (size : Nat)
  | memset (ptr : Nat) (value : Nat) (size : Nat)
  | open_thread_local_device
  | register_memory (mr_id : Nat) (ptr : Nat) (size : Nat)
  | destroy_rc_qp
  | new_LockTableStore (bucket_num : Int)
  | SendLockTableMeta (hash_meta_buffer : List Nat) (total_meta_size : Nat)
  | printf
  | scanf (ch : Char)
  | usleep (usec : Nat)
  deriving DecidableEq, Repr

/-- Whether an event is the entry into a method of `LockTableServer`. -/
def Event.isMethod : Event → Bool
  | .AllocMem | .InitMem | .InitRDMA | .LoadLockTable _ | .CleanLockTable | .CleanQP
  | .SendMeta _ _ | .Run => true
  | _ => false

/-- The ways a run stops without returning: a failed `assert`/`RDMA_ASSERT`
aborts the process, undefined behaviour is not followed further, and
`out_of_fuel` marks a loop that has not finished within the step budget. -/
inductive Stop where
  | assert_failed
  | undefined_behaviour
  | out_of_fuel
  deriving DecidableEq, Repr

/-- The server object together with what has been observed of the process so
far and the number of characters read from standard input. -/
structure World where
  server : LockTableServer
  trace : List Event
  stdin_pos : Nat
  deriving DecidableEq, Repr

/-- Append an event to the trace. -/
def World.emit (w : World) (e : Event) : World := { w with trace := w.trace ++ [e] }

/-- What the platform answers and the constants declared outside the files at
hand: the sentinel, the region id, the size of a lock-table node, the address
`malloc` returns for the lock-table buffer (0 on failure), whether
`register_memory` succeeds, and the contents of freshly allocated memory. -/
structure Env where
  MEM_STORE_META_END : Nat
  SERVER_LOCK_TABLE_ID : Nat
  LockTableNodeSize : Nat
  malloc_result : Nat
  register_memory_ok : Bool
  junk : Nat → Nat

/-- The values `main` reads from `memory_node_config.json`. -/
structure Config where
  machine_num : Int
  machine_id : Int
  local_port : Int
  local_meta_port : Int
  mem_size_GB : Nat
  compute_node_num : Nat
  deriving DecidableEq, Repr

/-- The constructor call
`LockTableServer(machine_id, local_port, local_meta_port, lock_table_buf_size)`:
the pointers start out null. -/
def LockTableServer.new (machine_id local_port local_meta_port : Int)
    (lock_table_buf_size : Nat) : LockTableServer where
  server_node_id := machine_id
  local_port := local_port
  local_meta_port := local_meta_port
  lock_table_buf_size := lock_table_buf_size
  lock_table_bucket_buffer := 0
  lock_table_reserve_buffer := 0
  rdma_ctrl := none
  locktable_store := none

/-- Source: `void LockTableServer::AllocMem()`. -/
def AllocMem (env : Env) (w : World) : Except Stop World :=
  let w := w.emit .AllocMem
  let w := w.emit (.malloc w.server.lock_table_buf_size)
  let lock_table_bucket_buffer := env.malloc_result
  if lock_table_bucket_buffer = 0 then .error .assert_failed
  else
    match reserve_start w.server.lock_table_buf_size with
    | none => .error .undefined_behaviour
    | some reserve_start =>
      .ok { w with server := { w.server with
              lock_table_bucket_buffer := lock_table_bucket_buffer
              lock_table_reserve_buffer := lock_table_bucket_buffer + reserve_start } }

/-- Source: `void LockTableServer::InitMem()`. -/
def InitMem (w : World) : World :=
  let w := w.emit .InitMem
  w.emit (.memset w.server.lock_table_bucket_buffer 0 w.server.lock_table_buf_size)

/-- Source: `void LockTableServer::InitRDMA()`. -/
def InitRDMA (env : Env) (w : World) : Except Stop World :=
  let w := w.emit .InitRDMA
  let rdma_ctrl : RdmaCtrl := ⟨w.server.server_node_id, w.server.local_port, false, []⟩
  let w := w.emit .open_thread_local_device
  let rdma_ctrl := { rdma_ctrl with device_opened := true }
  let w := w.emit (.register_memory env.SERVER_LOCK_TABLE_ID
    w.server.lock_table_bucket_buffer w.server.lock_table_buf_size)
  if env.register_memory_ok = true then
    let rdma_ctrl := { rdma_ctrl with
      registered := rdma_ctrl.registered ++ [(env.SERVER_LOCK_TABLE_ID,
        w.server.lock_table_bucket_buffer, w.server.lock_table_buf_size)] }
    .ok { w with server := { w.server with rdma_ctrl := some rdma_ctrl } }
  else .error .assert_failed

/-- Modelled from the spec: the constructor
`LockTableStore(bucket_num, &mem_store_alloc_param)` of a class defined
outside the files at hand.  The structure is built "entirely via offsets
relative to the buffer base" and afterwards reports the bucket count it was
loaded with. -/
def LockTableStore.new (node_size : Nat) (bucket_num : Int)
    (mem_region_start mem_store_start mem_store_alloc_offset _mem_store_reserve : Nat) :
    LockTableStore where
  GetAddrPtr := mem_store_start + mem_store_alloc_offset
  GetBucketNum := toUnsigned 8 bucket_num
  GetLockTableNodeSize := node_size
  GetBaseOff := ((mem_store_start + mem_store_alloc_offset : Nat) : Int) - (mem_region_start : Int)

/-- Source: `void LockTableServer::LoadLockTable(int bucket_num)`. -/
def LoadLockTable (env : Env) (bucket_num : Int) (w : World) : World :=
  let w := w.emit (.LoadLockTable bucket_num)
  let w := w.emit (.new_LockTableStore bucket_num)
  { w with server := { w.server with
      locktable_store := some (LockTableStore.new env.LockTableNodeSize bucket_num
        w.server.lock_table_bucket_buffer w.server.lock_table_bucket_buffer 0
        w.server.lock_table_reserve_buffer) } }

/-- Source: `void LockTableServer::CleanLockTable() {}`. -/
def CleanLockTable (w : World) : World := w.emit .CleanLockTable

/-- Source: `void LockTableServer::CleanQP()`: `rdma_ctrl->destroy_rc_qp();`. -/
def CleanQP (w : World) : Except Stop World :=
  let w := w.emit .CleanQP
  match w.server.rdma_ctrl with
  | none => .error .undefined_behaviour
  | some _ => .ok (w.emit .destroy_rc_qp)

/-- The loop of `SendMeta`: one `SendLockTableMeta` per compute node. -/
def sendToAll (hash_meta_buffer : List Nat) (total_meta_size : Nat) : Nat → World → World
  | 0, w => w
  | n + 1, w =>
    sendToAll hash_meta_buffer total_meta_size n
      (w.emit (.SendLockTableMeta hash_meta_buffer total_meta_size))

/-- Source: `void LockTableServer::SendMeta(node_id_t machine_id, size_t compute_node_num)`.
The message buffer is the value `r.1`; its allocation inside
`PrepareLockTableMeta` is taken to succeed, and neither that `malloc` nor the
final `free` is traced. -/
def SendMeta (env : Env) (machine_id : Int) (compute_node_num : Nat) (w : World) :
    Except Stop World :=
  let w := w.emit (.SendMeta machine_id compute_node_num)
  match w.server.locktable_store with
  | none => .error .undefined_behaviour
  | some locktable_store =>
    let r := PrepareLockTableMeta env.MEM_STORE_META_END env.junk locktable_store machine_id
    if r.2 = 0 then .error .assert_failed
    else
      .ok (sendToAll r.1 r.2 compute_node_num w)

/-- The `while (true)` loop of `Run`.  `stdin` is the stream of characters the
successive `scanf("%c", &ch)` calls deliver. -/
def RunLoop (stdin : Nat → Char) : Nat → World → Except Stop (Bool × World)
  | 0, _ => .error .out_of_fuel
  | fuel + 1, w =>
    let ch := stdin w.stdin_pos
    let w := { w.emit (.scanf ch) with stdin_pos := w.stdin_pos + 1 }
    if ch = 'q' then .ok (false, w)
    else if ch = 'c' then .ok (true, w)
    else RunLoop stdin fuel ((w.emit .printf).emit (.usleep 2000))

/-- Source: `bool LockTableServer::Run()`: the two banner `printf`s, then the loop. -/
def Run (stdin : Nat → Char) (fuel : Nat) (w : World) : Except Stop (Bool × World) :=
  let w := w.emit .Run
  let w := w.emit .printf
  let w := w.emit .printf
  RunLoop stdin fuel w

/-- The body of the `while (run_next_round)` loop of `main` up to, but not
including, its final `Run()`. -/
def roundBody (env : Env) (bucket_num : Int) (machine_id : Int) (compute_node_num : Nat)
    (w : World) : Except Stop World :=
  let w := InitMem w
  let w := CleanLockTable w
  match CleanQP w with
  | .error e => .error e
  | .ok w =>
    let w := LoadLockTable env bucket_num w
    SendMeta env machine_id compute_node_num w

/-- The `while (run_next_round)` loop of `main`. -/
def roundLoop (env : Env) (bucket_num : Int) (machine_id : Int) (compute_node_num : Nat)
    (stdin : Nat → Char) (runFuel : Nat) : Nat → Bool → World → Except Stop World
  | _, false, w => .ok w
  | 0, true, _ => .error .out_of_fuel
  | fuel + 1, true, w =>
    match roundBody env bucket_num machine_id compute_node_num w with
    | .error e => .error e
    | .ok w =>
      match Run stdin runFuel w with
      | .error e => .error e
      | .ok (run_next_round, w) =>
        roundLoop env bucket_num machine_id compute_node_num stdin runFuel fuel
          run_next_round w

/-- The first round of `main`, from the construction of the server up to, but
not including, the first `Run()`. -/
def firstRound (env : Env) (cfg : Config) : Except Stop (Int × World) :=
  if 0 ≤ cfg.machine_id ∧ cfg.machine_id < cfg.machine_num then
    let mem_size := mem_size_of cfg.mem_size_GB
    let lock_table_buf_size := mem_size
    let w : World :=
      ⟨LockTableServer.new cfg.machine_id cfg.local_port cfg.local_meta_port
        lock_table_buf_size, [], 0⟩
    match AllocMem env w with
    | .error e => .error e
    | .ok w =>
      let w := InitMem w
      match bucket_num_of mem_size with
      | none => .error .undefined_behaviour
      | some bucket_num =>
        let w := LoadLockTable env bucket_num w
        match SendMeta env cfg.machine_id cfg.compute_node_num w with
        | .error e => .error e
        | .ok w =>
          match InitRDMA env w with
          | .error e => .error e
          | .ok w => .ok (bucket_num, w)
  else .error .assert_failed

/-- Source: `int main(int argc, char* argv[])`, from the configuration values on; the
two trailing `system("cp ...")` calls that save process statistics are left
out.  `fuel` bounds the number of characters one `Run()` reads and the number
of rounds. -/
def main (env : Env) (cfg : Config) (stdin : Nat → Char) (fuel : Nat) : Except Stop World :=
  match firstRound env cfg with
  | .error e => .error e
  | .ok (bucket_num, w) =>
    match Run stdin fuel w with
    | .error e => .error e
    | .ok (run_next_round, w) =>
      roundLoop env bucket_num cfg.machine_id cfg.compute_node_num stdin fuel fuel
        run_next_round w

/-- The method entries of a trace, in order. -/
def methodCalls (trace : List Event) : List Event := trace.filter Event.isMethod

/-- Whether an event is console input/output or the pause of `Run`. -/
def Event.isConsole : Event → Bool
  | .printf | .scanf _ | .usleep _ => true
  | _ => false

/-- A trace with the console events of `Run` left out. -/
def withoutConsole (trace : List Event) : List Event :=
  trace.filter (fun e => !e.isConsole)

/-- Whether an event acquires one of the once-per-process resources: the
allocation of the lock-table buffer, the RDMA device, the memory
registration. -/
def Event.isResource : Event → Bool
  | .malloc _ | .open_thread_local_device | .register_memory _ _ _ => true
  | _ => false

/-- Repetition: `n` copies of a block of events, one after the other. -/
def repeatBlock : Nat → List Event → List Event
  | 0, _ => []
  | n + 1, block => block ++ repeatBlock n block

/-- The lock-table structure `LoadLockTable(bucket_num)` builds over a buffer
at `env.malloc_result` whose reserve range starts `reserve` bytes in. -/
def loadedStore (env : Env) (bucket_num : Int) (reserve : Nat) : LockTableStore :=
  LockTableStore.new env.LockTableNodeSize bucket_num env.malloc_result env.malloc_result 0
    (env.malloc_result + reserve)

/-- The server object as the first round leaves it (statement vocabulary for
the theorems on `main`). -/
def serverInService (env : Env) (cfg : Config) (bucket_num : Int) (reserve : Nat) :
    LockTableServer where
  server_node_id := cfg.machine_id
  local_port := cfg.local_port
  local_meta_port := cfg.local_meta_port
  lock_table_buf_size := mem_size_of cfg.mem_size_GB
  lock_table_bucket_buffer := env.malloc_result
  lock_table_reserve_buffer := env.malloc_result + reserve
  rdma_ctrl := some ⟨cfg.machine_id, cfg.local_port, true,
    [(env.SERVER_LOCK_TABLE_ID, env.malloc_result, mem_size_of cfg.mem_size_GB)]⟩
  locktable_store := some (loadedStore env bucket_num reserve)

/-- The events of one `SendMeta` call on a server holding `loadedStore`. -/
def sendMetaEvents (env : Env) (cfg : Config) (bucket_num : Int) (reserve : Nat) :
    List Event :=
  [Event.SendMeta cfg.machine_id cfg.compute_node_num] ++
    List.replicate cfg.compute_node_num
      (Event.SendLockTableMeta
        (PrepareLockTableMeta env.MEM_STORE_META_END env.junk
          (loadedStore env bucket_num reserve) cfg.machine_id).1
        (PrepareLockTableMeta env.MEM_STORE_META_END env.junk
          (loadedStore env bucket_num reserve) cfg.machine_id).2)

/-- The events of the first round of `main`, before the first `Run()`. -/
def firstRoundEvents (env : Env) (cfg : Config) (bucket_num : Int) (reserve : Nat) :
    List Event :=
  [Event.AllocMem, Event.malloc (mem_size_of cfg.mem_size_GB),
    Event.InitMem, Event.memset env.malloc_result 0 (mem_size_of cfg.mem_size_GB),
    Event.LoadLockTable bucket_num, Event.new_LockTableStore bucket_num] ++
  (sendMetaEvents env cfg bucket_num reserve ++
    [Event.InitRDMA, Event.open_thread_local_device,
      Event.register_memory env.SERVER_LOCK_TABLE_ID env.malloc_result
        (mem_size_of cfg.mem_size_GB)])

/-- The events of one continue round of `main`, before its `Run()`. -/
def roundEvents (env : Env) (cfg : Config) (bucket_num : Int) (reserve : Nat) :
    List Event :=
  [Event.InitMem, Event.memset env.malloc_result 0 (mem_size_of cfg.mem_size_GB),
    Event.CleanLockTable, Event.CleanQP, Event.destroy_rc_qp,
    Event.LoadLockTable bucket_num, Event.new_LockTableStore bucket_num] ++
  sendMetaEvents env cfg bucket_num reserve

/-- The events of the `Run` loop while it reads `n` characters from position
`pos` on that are neither `c` nor `q`: per character the `scanf`, one
re-prompt `printf` and the `usleep(2000)`. -/
def rePrompts (stdin : Nat → Char) : Nat → Nat → List Event
  | _, 0 => []
  | pos, n + 1 =>
    [Event.scanf (stdin pos), Event.printf, Event.usleep 2000] ++ rePrompts stdin (pos + 1) n

/-- A sample deployment: sentinel `0xE0FF0E0F`, region id 5, 4096-byte
nodes, a buffer that `malloc` places at `0x7f0000000000`, a registration
that succeeds, fresh memory filled with `0xAA`. -/
def sampleEnv : Env := ⟨0xE0FF0E0F, 5, 4096, 0x7f0000000000, true, fun _ => 0xAA⟩

/-- A sample configuration: the only lock-table node (id 0), 1 GiB of
memory, one compute node. -/
def sampleConfig : Config := ⟨1, 0, 12345, 12346, 1, 1⟩

/-- The operator types `c` once and then `q`. -/
def sampleInput : Nat → Char := fun i => if i = 0 then 'c' else 'q'

/-- The method entries of a finished run, `none` if the run stopped. -/
def methodCallsOf (run : Except Stop World) : Option (List Event) :=
  match run with
  | .ok w => some (methodCalls w.trace)
  | .error _ => none

/-! ## `LockTableServer::SendLockTableMeta`: the bootstrap handshake -/

/-- The bytes of the string literal the server compares the acknowledgment
with. -/
def ACK_LITERAL : List Nat := "[ACK]hash_meta_received_from_client".toList.map Char.toNat

/-- The C library function `strcmp` on two blocks of memory holding the
strings: the bytes are compared in turn up to the first difference or a common
NUL; the result is the difference of the first differing bytes, 0 when the
strings are equal.  Running off the end of a block has no defined result. -/
def strcmp : List Nat → List Nat → Option Int
  | a :: s1, b :: s2 =>
    if a ≠ b then some ((a : Int) - (b : Int))
    else if a = 0 then some 0
    else strcmp s1 s2
  | _, _ => none

/-- The C string held in a block of memory: the bytes before the first NUL.
This is what `std::string ack(recv_buf)` reads; a block without a NUL makes it
read past the end. -/
def cstring : List Nat → Option (List Nat)
  | [] => none
  | b :: bs => if b = 0 then some [] else (cstring bs).map (fun s => b :: s)

/-- The log lines of `SendLockTableMeta`, one per `RDMA_LOG` statement. -/
inductive LogLine where
  | creates_socket_error
  | creates_socket_success
  | binds_socket_error
  | binds_socket_success
  | listens_error
  | listens_success
  | accepts_error
  | accepts_success
  | sends_hash_meta_error
  | sends_hash_meta_success
  | client_receives_hash_meta_error (ack : List Nat)
  deriving DecidableEq, Repr

/-- The system and library calls of `SendLockTableMeta`, in program order. -/
inductive SockEvent where
  | socket
  | setsockopt (fd : Int)
  | bind (fd : Int) (port : Int)
  | listen (fd : Int) (backlog : Nat)
  | accept (fd : Int)
  | send (fd : Int) (buf : List Nat) (len : Nat)
  | recv (fd : Int) (len : Nat)
  | close (fd : Int)
  | log_error (line : LogLine)
  | log_info (line : LogLine)
  | malloc (size : Nat)
  | free
  deriving DecidableEq, Repr

/-- What the operating system and the peer answer during one handshake: the
return values of `socket`, `bind`, `listen`, `accept` and `send` (negative on
failure), the bytes `recv` delivers (`none` when `recv` fails and stores
nothing), and the contents of the freshly allocated receive buffer. -/
structure SocketEnv where
  socket_result : Int
  bind_result : Int
  listen_result : Int
  accept_result : Int
  send_result : Int
  recv_result : Option (List Nat)
  recv_junk : Nat → Nat

/-- Source: `void LockTableServer::SendLockTableMeta(char* hash_meta_buffer,
size_t& total_meta_size)`, reading the member `local_meta_port`.  The result
is the sequence of calls made when the function returns. -/
def SendLockTableMeta (env : SocketEnv) (local_meta_port : Int)
    (hash_meta_buffer : List Nat) (total_meta_size : Nat) : Except Stop (List SockEvent) :=
  let listen_socket := env.socket_result
  let t := [SockEvent.socket, SockEvent.setsockopt listen_socket]
  if listen_socket < 0 then
    .ok (t ++ [.log_error .creates_socket_error, .close listen_socket])
  else
    let t := t ++ [.log_info .creates_socket_success, .bind listen_socket local_meta_port]
    if env.bind_result < 0 then
      .ok (t ++ [.log_error .binds_socket_error, .close listen_socket])
    else
      let max_listen_num := 10
      let t := t ++ [.log_info .binds_socket_success, .listen listen_socket max_listen_num]
      if env.listen_result < 0 then
        .ok (t ++ [.log_error .listens_error, .close listen_socket])
      else
        let t := t ++ [.log_info .listens_success, .accept listen_socket]
        let from_client_socket := env.accept_result
        if from_client_socket < 0 then
          .ok (t ++ [.log_error .accepts_error, .close from_client_socket,
            .close listen_socket])
        else
          let t := t ++ [.log_info .accepts_success,
            .send from_client_socket hash_meta_buffer total_meta_size]
          let retlen := env.send_result
          if retlen < 0 then
            .ok (t ++ [.log_error .sends_hash_meta_error, .close from_client_socket,
              .close listen_socket])
          else
            let t := t ++ [.log_info .sends_hash_meta_success]
            let recv_ack_size := 100
            let recv_buf := malloc env.recv_junk recv_ack_size
            let t := t ++ [.malloc recv_ack_size, .recv from_client_socket recv_ack_size]
            let recv_buf :=
              match env.recv_result with
              | none => recv_buf
              | some data => writeAt recv_buf 0 (data.take recv_ack_size)
            match strcmp recv_buf (ACK_LITERAL ++ [0]) with
            | none => .error .undefined_behaviour
            | some d =>
              if d ≠ 0 then
                match cstring recv_buf with
                | none => .error .undefined_behaviour
                | some ack =>
                  .ok (t ++ [.log_error (.client_receives_hash_meta_error ack), .free,
                    .close from_client_socket, .close listen_socket])
              else
                .ok (t ++ [.free, .close from_client_socket, .close listen_socket])

/-- Whether a call logs at level ERROR. -/
def SockEvent.isLogError : SockEvent → Bool
  | .log_error _ => true
  | _ => false

/-- The calls of a handshake that returned, `none` if it did not. -/
def callsOf (run : Except Stop (List SockEvent)) : Option (List SockEvent) :=
  match run with
  | .ok t => some t
  | .error _ => none

/-! ## `TATP::SelectUniqueItem` (tatp_db.cc)

`FastRand(uint64_t* seed)` is defined outside the files at hand and is a
parameter here: a function from the seed to the value returned and the updated
seed. -/

/-- The local variables of `SelectUniqueItem` that the loop changes, with the
seed `*tmp_seed`.  `used` is the array `int used[32]`. -/
structure SelectState where
  i : Int
  used : List Nat
  ret : List Nat
  tmp_seed : Nat
  deriving DecidableEq, Repr

/-- Source: `int to_select = (FastRand(tmp_seed) % (M - N + 1)) + N;` for the
value `r` that `FastRand` returned: unsigned 32-bit arithmetic, then the
conversion to `int`.  A zero divisor has no defined result. -/
def to_select_of (r N M : Nat) : Option Int :=
  if (M - N + 1) % 2 ^ 32 = 0 then none
  else some (toSigned 4 ((r % ((M - N + 1) % 2 ^ 32) + N) % 2 ^ 32))

/-- One pass through the body of the `for` loop of `SelectUniqueItem`, up to
and including the `i++` of the loop header.  In the branch `i--; continue;`
the two cancel and `i` stays as it is. -/
def selectStep (FastRand : Nat → Nat × Nat) (values : List Nat) (st : SelectState) :
    Except Stop SelectState :=
  if values.length = 0 then .error .undefined_behaviour
  else
    let r := FastRand st.tmp_seed
    let index : Int := toSigned 4 ((r.1 % values.length) % 2 ^ 32)
    if index < 0 then .error .undefined_behaviour
    else
      let value := values.getD index.toNat 0
      if ¬ value < 32 then .error .assert_failed
      else if st.used.getD value 0 = 1 then .ok { st with tmp_seed := r.2 }
      else
        .ok { i := st.i + 1, used := st.used.set value 1, ret := st.ret ++ [value],
              tmp_seed := r.2 }

/-- The `for (int i = 0; i < to_select; i++)` loop of `SelectUniqueItem`;
`fuel` bounds the number of passes. -/
def selectLoop (FastRand : Nat → Nat × Nat) (values : List Nat) (to_select : Int) :
    Nat → SelectState → Except Stop SelectState
  | 0, st => if st.i < to_select then .error .out_of_fuel else .ok st
  | fuel + 1, st =>
    if st.i < to_select then
      match selectStep FastRand values st with
      | .error e => .error e
      | .ok st2 => selectLoop FastRand values to_select fuel st2
    else .ok st

/-- Source: `std::vector<uint8_t> TATP::SelectUniqueItem(uint64_t* tmp_seed,
std::vector<uint8_t> values, unsigned N, unsigned M)`.  The result is the
vector returned and the seed left in `*tmp_seed`. -/
def SelectUniqueItem (FastRand : Nat → Nat × Nat) (fuel : Nat) (tmp_seed : Nat)
    (values : List Nat) (N M : Nat) : Except Stop (List Nat × Nat) :=
  if ¬ M ≥ N then .error .assert_failed
  else if ¬ M ≥ values.length then .error .assert_failed
  else
    let used := List.replicate 32 0
    let r := FastRand tmp_seed
    match to_select_of r.1 N M with
    | none => .error .undefined_behaviour
    | some to_select =>
      match selectLoop FastRand values to_select fuel ⟨0, used, [], r.2⟩ with
      | .error e => .error e
      | .ok st => .ok (st.ret, st.tmp_seed)

/-- The seed after `n` further calls of `FastRand`. -/
def seedAfter (FastRand : Nat → Nat × Nat) : Nat → Nat → Nat
  | 0, seed => seed
  | n + 1, seed => seedAfter FastRand n (FastRand seed).2

/-- The value the loop draws from `values` with the given seed:
`values[FastRand(tmp_seed) % values.size()]`. -/
def drawnValue (FastRand : Nat → Nat × Nat) (values : List Nat) (seed : Nat) : Nat :=
  values.getD ((FastRand seed).1 % values.length) 0

/-- The values drawn by `n` successive passes of the loop, in order. -/
def drawn (FastRand : Nat → Nat × Nat) (values : List Nat) : Nat → Nat → List Nat
  | 0, _ => []
  | n + 1, seed =>
    drawnValue FastRand values seed :: drawn FastRand values n (FastRand seed).2

/-- Append a value unless it is there already. -/
def pushNew (acc : List Nat) (v : Nat) : List Nat := if v ∈ acc then acc else acc ++ [v]

/-- The distinct values of a sequence, each at the place of its first
occurrence. -/
def firstSeen (l : List Nat) : List Nat := l.foldl pushNew []

/-- The loop invariant of `SelectUniqueItem`: `used` has its 32 entries and
marks exactly the values selected so far, which are pairwise distinct elements
of `values`, and `i` counts them. -/
def SelectState.Inv (values : List Nat) (st : SelectState) : Prop :=
  st.used.length = 32 ∧
  (∀ v, v < 32 → (st.used.getD v 0 = 1 ↔ v ∈ st.ret)) ∧
  st.ret.Nodup ∧
  (∀ x ∈ st.ret, x ∈ values) ∧
  st.i = (st.ret.length : Int)

/-- A stand-in for `FastRand` used in examples: it returns the seed and
increments it. -/
def counterRand (seed : Nat) : Nat × Nat := (seed, seed + 1)

/-- The result of a call that returned, `none` if it did not. -/
def resultOf (run : Except Stop (List Nat × Nat)) : Option (List Nat × Nat) :=
  match run with
  | .ok r => some r
  | .error _ => none

/-! ## Properties of `QPManager` -/

theorem QPManager.subscript_data (MAX : Nat) (qm : QPManager) (stray : Int → RCQPPtr)
    (hwf : qm.wf MAX) (n : Int) (h0 : 0 ≤ n) (h1 : n < MAX) :
    qm.subscript stray qm.dataBase n = qm.data_qps.getD n.toNat nullptr := by
  obtain ⟨hd, -⟩ := hwf
  have hlt : n.toNat < qm.data_qps.length := by omega
  have hlen : qm.storage.length = qm.data_qps.length + (qm.storage.length - qm.data_qps.length) := by
    simp [QPManager.storage]
  have hcond : 0 ≤ ((QPManager.dataBase qm : Nat) : Int) + n ∧
      ((QPManager.dataBase qm : Nat) : Int) + n < (qm.storage.length : Int) := by
    simp only [QPManager.dataBase]
    constructor
    · omega
    · omega
  simp only [QPManager.subscript, hcond, and_self, if_true]
  simp only [QPManager.dataBase, QPManager.storage, Nat.cast_zero, zero_add]
  rw [List.getD_append _ _ _ _ hlt]

theorem QPManager.subscript_log (MAX : Nat) (qm : QPManager) (stray : Int → RCQPPtr)
    (hwf : qm.wf MAX) (n : Int) (h0 : 0 ≤ n) (h1 : n < MAX) :
    qm.subscript stray qm.logBase n = qm.log_qps.getD n.toNat nullptr := by
  obtain ⟨hd, hl, -⟩ := hwf
  have hlt : n.toNat < qm.log_qps.length := by omega
  have hslot : (((QPManager.logBase qm : Nat) : Int) + n).toNat = qm.data_qps.length + n.toNat := by
    simp only [QPManager.logBase]; omega
  have hcond : 0 ≤ ((QPManager.logBase qm : Nat) : Int) + n ∧
      ((QPManager.logBase qm : Nat) : Int) + n < (qm.storage.length : Int) := by
    simp only [QPManager.logBase, QPManager.storage, List.length_append, List.length_cons,
      List.length_nil]
    constructor
    · omega
    · push_cast; omega
  simp only [QPManager.subscript, hcond, and_self, if_true, hslot]
  simp only [QPManager.storage]
  rw [List.getD_append_right _ _ _ _ (by omega)]
  rw [Nat.add_sub_cancel_left, List.getD_append _ _ _ _ hlt]

theorem QPManager.foldl_pushIfConnected (MAX : Nat) (qm : QPManager) (stray : Int → RCQPPtr)
    (hwf : qm.wf MAX) (node_ids : List Int) (hids : ∀ id ∈ node_ids, 0 ≤ id ∧ id < (MAX : Int))
    (qps : List RCQPPtr) :
    node_ids.foldl (qm.pushIfConnected stray) qps =
      qps ++ (node_ids.map (fun id => qm.data_qps.getD id.toNat nullptr)).filter
        (fun qp => qp != nullptr) := by
  induction node_ids generalizing qps with
  | nil => simp
  | cons id rest ih =>
    have hid := hids id (List.mem_cons_self _ _)
    have hrest : ∀ i ∈ rest, 0 ≤ i ∧ i < (MAX : Int) :=
      fun i hi => hids i (List.mem_cons_of_mem _ hi)
    rw [List.foldl_cons, ih hrest]
    simp only [QPManager.pushIfConnected, QPManager.subscript_data MAX qm stray hwf id hid.1 hid.2,
      List.map_cons, List.filter_cons]
    generalize qm.data_qps.getD id.toNat nullptr = qp
    generalize List.filter (fun qp => qp != nullptr)
      (List.map (fun id => qm.data_qps.getD id.toNat nullptr) rest) = tail
    by_cases hnull : qp = nullptr
    · simp [hnull]
    · simp [hnull]

theorem QPManager.store_wf (MAX : Nat) (qm : QPManager) (hwf : qm.wf MAX) (role : Role)
    (node_id : Int) (qp : RCQPPtr) : (qm.store role node_id qp).wf MAX := by
  obtain ⟨h1, h2, h3, h4, h5, h6⟩ := hwf
  cases role <;> simp [QPManager.store, QPManager.wf, *]

theorem QPManager.store_data_entry (MAX : Nat) (qm : QPManager) (hwf : qm.wf MAX) (role : Role)
    (node_id : Int) (qp : RCQPPtr) (hid : 0 ≤ node_id ∧ node_id < (MAX : Int))
    (n : Int) (h0 : 0 ≤ n) :
    (qm.store role node_id qp).data_qps.getD n.toNat nullptr =
      if role = Role.data ∧ node_id = n then qp else qm.data_qps.getD n.toNat nullptr := by
  obtain ⟨h1, -⟩ := hwf
  have hlt : node_id.toNat < qm.data_qps.length := by omega
  have hiff : node_id.toNat = n.toNat ↔ node_id = n := by omega
  cases role <;>
    simp [QPManager.store, List.getD_eq_getElem?_getD, List.getElem?_set, hlt, hiff]
  split <;> simp

theorem QPManager.store_log_entry (MAX : Nat) (qm : QPManager) (hwf : qm.wf MAX) (role : Role)
    (node_id : Int) (qp : RCQPPtr) (hid : 0 ≤ node_id ∧ node_id < (MAX : Int))
    (n : Int) (h0 : 0 ≤ n) :
    (qm.store role node_id qp).log_qps.getD n.toNat nullptr =
      if role = Role.log ∧ node_id = n then qp else qm.log_qps.getD n.toNat nullptr := by
  obtain ⟨-, h2, -⟩ := hwf
  have hlt : node_id.toNat < qm.log_qps.length := by omega
  have hiff : node_id.toNat = n.toNat ↔ node_id = n := by omega
  cases role <;>
    simp [QPManager.store, List.getD_eq_getElem?_getD, List.getElem?_set, hlt, hiff]
  split <;> simp

theorem QPManager.storeAll_entries (MAX : Nat) (stores : List (Role × Int × RCQPPtr))
    (hst : ∀ s ∈ stores, 0 ≤ s.2.1 ∧ s.2.1 < (MAX : Int)) (n : Int) (h0 : 0 ≤ n)
    (qm : QPManager) (hwf : qm.wf MAX) :
    (qm.storeAll stores).wf MAX ∧
    (qm.storeAll stores).data_qps.getD n.toNat nullptr =
      QPManager.lastStored Role.data n (qm.data_qps.getD n.toNat nullptr) stores ∧
    (qm.storeAll stores).log_qps.getD n.toNat nullptr =
      QPManager.lastStored Role.log n (qm.log_qps.getD n.toNat nullptr) stores := by
  induction stores generalizing qm with
  | nil => exact ⟨hwf, rfl, rfl⟩
  | cons s rest ih =>
    have hs := hst s (List.mem_cons_self _ _)
    have hrest : ∀ t ∈ rest, 0 ≤ t.2.1 ∧ t.2.1 < (MAX : Int) :=
      fun t ht => hst t (List.mem_cons_of_mem _ ht)
    have hwf1 := QPManager.store_wf MAX qm hwf s.1 s.2.1 s.2.2
    have step := ih hrest (qm.store s.1 s.2.1 s.2.2) hwf1
    simp only [QPManager.storeAll, QPManager.lastStored, List.foldl_cons] at step ⊢
    rw [QPManager.store_data_entry MAX qm hwf s.1 s.2.1 s.2.2 hs n h0,
      QPManager.store_log_entry MAX qm hwf s.1 s.2.1 s.2.2 hs n h0] at step
    exact step

theorem QPManager.new_wf (MAX tid : Nat) : (QPManager.new MAX tid).wf MAX := by
  simp [QPManager.new, QPManager.wf]

/-- C1: for a well-formed manager and valid node ids,
`GetRemoteDataQPsWithNodeIDs(ids, qps)` leaves the manager unchanged and leaves
`qps` equal to its prior contents followed by exactly the non-null handles
`data_qps[id]`, `id` ranging over `ids` in request order (repeats included);
called with an empty `qps` the result has at most `|ids|` entries. -/
theorem GetRemoteDataQPsWithNodeIDs_appends_connected (MAX : Nat) (qm : QPManager)
    (stray : Int → RCQPPtr) (node_ids : List Int) (qps : List RCQPPtr)
    (hwf : qm.wf MAX) (hids : ∀ id ∈ node_ids, 0 ≤ id ∧ id < (MAX : Int)) :
    qm.GetRemoteDataQPsWithNodeIDs stray node_ids qps =
        (qm, qps ++ (node_ids.map (fun id => qm.data_qps.getD id.toNat nullptr)).filter
          (fun qp => qp != nullptr)) ∧
      (qm.GetRemoteDataQPsWithNodeIDs stray node_ids []).2 =
        (node_ids.map (fun id => qm.data_qps.getD id.toNat nullptr)).filter
          (fun qp => qp != nullptr) ∧
      (qm.GetRemoteDataQPsWithNodeIDs stray node_ids []).2.length ≤ node_ids.length := by
  have key := QPManager.foldl_pushIfConnected MAX qm stray hwf node_ids hids
  refine ⟨?_, ?_, ?_⟩
  · simp only [QPManager.GetRemoteDataQPsWithNodeIDs, key]
  · simp only [QPManager.GetRemoteDataQPsWithNodeIDs, key, List.nil_append]
  · simp only [QPManager.GetRemoteDataQPsWithNodeIDs, key, List.nil_append]
    exact (List.length_filter_le _ _).trans (by simp)

/-- Witness for C1: a three-slot manager with slot 1 unconnected, queried with
ids `[2, 1, 0, 2]` on top of an existing entry. -/
theorem GetRemoteDataQPsWithNodeIDs_appends_connected_witness :
    (QPManager.GetRemoteDataQPsWithNodeIDs
        ⟨[11, 0, 13], [21, 22, 23], [0, 0, 0], [0, 0, 0], [0, 0, 0], [0, 0, 0], 7⟩
        (fun _ => 99) [2, 1, 0, 2] [5]).2 = [5, 13, 11, 13] := by
  have h := (GetRemoteDataQPsWithNodeIDs_appends_connected 3
    ⟨[11, 0, 13], [21, 22, 23], [0, 0, 0], [0, 0, 0], [0, 0, 0], [0, 0, 0], 7⟩
    (fun _ => 99) [2, 1, 0, 2] [5] (by decide) (by decide)).1
  rw [h]
  decide

/-- C2: for a well-formed manager and a valid node id `n`,
`GetRemoteDataQPWithNodeID(n)` is exactly slot `n` of the data table and
`GetRemoteLogQPWithNodeID(n)` exactly slot `n` of the log table; the result is
the same on any other manager (and any surrounding memory) that agrees on that
one slot, so no other index and no other role's table matters; on a freshly
constructed manager both return null; and after any sequence of stores with
valid ids on a fresh manager they return the handle most recently stored for
`(data, n)`, respectively `(log, n)`, null if there is none. -/
theorem GetRemoteQPWithNodeID_returns_own_slot (MAX : Nat) (qm : QPManager)
    (stray : Int → RCQPPtr) (n : Int) (tid : Nat) (stores : List (Role × Int × RCQPPtr))
    (hwf : qm.wf MAX) (h0 : 0 ≤ n) (h1 : n < (MAX : Int))
    (hst : ∀ s ∈ stores, 0 ≤ s.2.1 ∧ s.2.1 < (MAX : Int)) :
    (qm.GetRemoteDataQPWithNodeID stray n = qm.data_qps.getD n.toNat nullptr ∧
      qm.GetRemoteLogQPWithNodeID stray n = qm.log_qps.getD n.toNat nullptr) ∧
    (∀ (qm2 : QPManager) (stray2 : Int → RCQPPtr), qm2.wf MAX →
      (qm2.data_qps.getD n.toNat nullptr = qm.data_qps.getD n.toNat nullptr →
        qm2.GetRemoteDataQPWithNodeID stray2 n = qm.GetRemoteDataQPWithNodeID stray n) ∧
      (qm2.log_qps.getD n.toNat nullptr = qm.log_qps.getD n.toNat nullptr →
        qm2.GetRemoteLogQPWithNodeID stray2 n = qm.GetRemoteLogQPWithNodeID stray n)) ∧
    ((QPManager.new MAX tid).GetRemoteDataQPWithNodeID stray n = nullptr ∧
      (QPManager.new MAX tid).GetRemoteLogQPWithNodeID stray n = nullptr) ∧
    (((QPManager.new MAX tid).storeAll stores).GetRemoteDataQPWithNodeID stray n =
        QPManager.lastStored Role.data n nullptr stores ∧
      ((QPManager.new MAX tid).storeAll stores).GetRemoteLogQPWithNodeID stray n =
        QPManager.lastStored Role.log n nullptr stores) := by
  have hdata : ∀ (m : QPManager) (st : Int → RCQPPtr), m.wf MAX →
      m.GetRemoteDataQPWithNodeID st n = m.data_qps.getD n.toNat nullptr :=
    fun m st hm => QPManager.subscript_data MAX m st hm n h0 h1
  have hlog : ∀ (m : QPManager) (st : Int → RCQPPtr), m.wf MAX →
      m.GetRemoteLogQPWithNodeID st n = m.log_qps.getD n.toNat nullptr :=
    fun m st hm => QPManager.subscript_log MAX m st hm n h0 h1
  have hnew := QPManager.new_wf MAX tid
  have hfresh_d : (QPManager.new MAX tid).data_qps.getD n.toNat nullptr = nullptr := by
    simp [QPManager.new, List.getD_eq_getElem?_getD, List.getElem?_replicate]
    split <;> simp
  have hfresh_l : (QPManager.new MAX tid).log_qps.getD n.toNat nullptr = nullptr := by
    simp [QPManager.new, List.getD_eq_getElem?_getD, List.getElem?_replicate]
    split <;> simp
  obtain ⟨hswf, hsd, hsl⟩ :=
    QPManager.storeAll_entries MAX stores hst n h0 (QPManager.new MAX tid) hnew
  refine ⟨⟨hdata qm stray hwf, hlog qm stray hwf⟩, ?_, ?_, ?_⟩
  · intro qm2 stray2 hwf2
    constructor
    · intro heq
      rw [hdata qm2 stray2 hwf2, hdata qm stray hwf, heq]
    · intro heq
      rw [hlog qm2 stray2 hwf2, hlog qm stray hwf, heq]
  · exact ⟨(hdata _ stray hnew).trans hfresh_d, (hlog _ stray hnew).trans hfresh_l⟩
  · constructor
    · rw [hdata _ stray hswf, hsd, hfresh_d]
    · rw [hlog _ stray hswf, hsl, hfresh_l]

/-- Witness for C2: three slots per table, node 1 connected twice for data
and once for log; the lookups return the latest data handle and the log
handle. -/
theorem GetRemoteQPWithNodeID_returns_own_slot_witness :
    ((QPManager.new 3 7).storeAll
        [(Role.data, 1, 41), (Role.log, 1, 52), (Role.data, 2, 43), (Role.data, 1, 44)]
      ).GetRemoteDataQPWithNodeID (fun _ => 99) 1 = 44 ∧
    ((QPManager.new 3 7).storeAll
        [(Role.data, 1, 41), (Role.log, 1, 52), (Role.data, 2, 43), (Role.data, 1, 44)]
      ).GetRemoteLogQPWithNodeID (fun _ => 99) 1 = 52 := by
  have h := (GetRemoteQPWithNodeID_returns_own_slot 3 (QPManager.new 3 7) (fun _ => 99) 1 7
    [(Role.data, 1, 41), (Role.log, 1, 52), (Role.data, 2, 43), (Role.data, 1, 44)]
    (by decide) (by decide) (by decide) (by decide)).2.2.2
  rw [h.1, h.2]
  decide

/-! ## Properties of the bootstrap message -/

theorem leBytes_length (w n : Nat) : (leBytes w n).length = w := by
  induction w generalizing n with
  | zero => rfl
  | succ w ih => simp [leBytes, ih]

theorem leValue_leBytes (w n : Nat) : leValue (leBytes w n) = n % 256 ^ w := by
  induction w generalizing n with
  | zero => simp [leBytes, leValue, Nat.mod_one]
  | succ w ih =>
    simp only [leBytes, leValue, ih]
    rw [pow_succ, Nat.mul_comm (256 ^ w) 256, Nat.mod_mul]

theorem toSigned_toUnsigned (w : Nat) (hw : 0 < w) (x : Int)
    (hlo : -(2 : Int) ^ (8 * w - 1) ≤ x) (hhi : x < (2 : Int) ^ (8 * w - 1)) :
    toSigned w (toUnsigned w x) = x := by
  have hpow : (2 : Int) ^ (8 * w) = 2 * (2 : Int) ^ (8 * w - 1) := by
    rw [← pow_succ']
    congr 1
    omega
  have hpos : (0 : Int) < (2 : Int) ^ (8 * w - 1) := by positivity
  have hnat : ((2 ^ (8 * w) : Nat) : Int) = (2 : Int) ^ (8 * w) := by push_cast; rfl
  unfold toSigned toUnsigned
  generalize hP : (2 : Int) ^ (8 * w - 1) = P at *
  generalize hQ : (2 : Int) ^ (8 * w) = Q at *
  have hmod0 : 0 ≤ x % Q := Int.emod_nonneg _ (by omega)
  have hcast : ((x % Q).toNat : Int) = x % Q := Int.toNat_of_nonneg hmod0
  by_cases hx : 0 ≤ x
  · have hm : x % Q = x := Int.emod_eq_of_lt hx (by omega)
    have hc : 2 * (x % Q).toNat < 2 ^ (8 * w) := by
      have : (2 : Int) * ((x % Q).toNat : Int) < ((2 ^ (8 * w) : Nat) : Int) := by
        rw [hcast, hm, hnat]; omega
      exact_mod_cast this
    rw [if_pos hc, hcast, hm]
  · have hm : x % Q = x + Q := by
      have h1 : (x + Q) % Q = x + Q := Int.emod_eq_of_lt (by omega) (by omega)
      rw [← h1, Int.add_emod_self]
    have hc : ¬ 2 * (x % Q).toNat < 2 ^ (8 * w) := by
      intro hlt
      have : (2 : Int) * ((x % Q).toNat : Int) < ((2 ^ (8 * w) : Nat) : Int) := by
        exact_mod_cast hlt
      rw [hcast, hm, hnat] at this
      omega
    rw [if_neg hc, hcast, hm]
    omega

theorem writeAt_append_left (pre rest : List Nat) (off : Nat) (src : List Nat) :
    writeAt (pre ++ rest) (pre.length + off) src = pre ++ writeAt rest off src := by
  induction pre with
  | nil => simp
  | cons b pre ih =>
    have hoff : (b :: pre).length + off = (pre.length + off) + 1 := by
      simp only [List.length_cons]; omega
    rw [List.cons_append, hoff, writeAt, ih, List.cons_append]

theorem writeAt_zero_replace (old rest src : List Nat) (hlen : old.length = src.length) :
    writeAt (old ++ rest) 0 src = src ++ rest := by
  induction old generalizing src with
  | nil =>
    cases src with
    | nil => cases rest <;> simp [writeAt]
    | cons x src => simp at hlen
  | cons b old ih =>
    cases src with
    | nil => simp at hlen
    | cons x src =>
      simp only [List.length_cons, Nat.add_right_cancel_iff] at hlen
      rw [List.cons_append, writeAt, ih src hlen, List.cons_append]

theorem writeAt_three (buf a b c : List Nat)
    (hlen : buf.length = a.length + b.length + c.length) :
    writeAt (writeAt (writeAt buf 0 a) (0 + a.length) b) (0 + a.length + b.length) c =
      a ++ (b ++ c) := by
  have hsplit : buf = buf.take a.length ++
      ((buf.drop a.length).take b.length ++ (buf.drop a.length).drop b.length) := by
    rw [List.take_append_drop, List.take_append_drop]
  have hA : (buf.take a.length).length = a.length := by
    rw [List.length_take]; omega
  have hB : ((buf.drop a.length).take b.length).length = b.length := by
    rw [List.length_take, List.length_drop]; omega
  have hC : ((buf.drop a.length).drop b.length).length = c.length := by
    rw [List.length_drop, List.length_drop]; omega
  generalize buf.take a.length = A at hsplit hA
  generalize (buf.drop a.length).take b.length = B at hsplit hB
  generalize (buf.drop a.length).drop b.length = C at hsplit hC
  subst hsplit
  rw [writeAt_zero_replace A (B ++ C) a hA]
  have h2 := writeAt_append_left a (B ++ C) 0 b
  rw [Nat.add_zero] at h2
  rw [Nat.zero_add, h2, writeAt_zero_replace B C b hB]
  have h3 := writeAt_append_left (a ++ b) C 0 c
  rw [Nat.add_zero, List.length_append, List.append_assoc] at h3
  rw [h3]
  have h4 := writeAt_zero_replace C [] c hC
  rw [List.append_nil, List.append_nil] at h4
  rw [h4, List.append_assoc]

theorem nodeIdBytes_length (machine_id : Int) :
    (nodeIdBytes machine_id).length = sizeof_node_id_t := leBytes_length _ _

theorem LockTableMeta.bytes_length (m : LockTableMeta) :
    m.bytes.length = sizeof_LockTableMeta := by
  simp [LockTableMeta.bytes, leBytes_length, sizeof_LockTableMeta]

theorem PrepareLockTableMeta_eq (MEM_STORE_META_END : Nat) (junk : Nat → Nat)
    (locktable_store : LockTableStore) (machine_id : Int) :
    PrepareLockTableMeta MEM_STORE_META_END junk locktable_store machine_id =
      (nodeIdBytes machine_id ++
        ((LockTableMeta.mk locktable_store.GetAddrPtr locktable_store.GetBucketNum
            locktable_store.GetLockTableNodeSize locktable_store.GetBaseOff).bytes ++
          leBytes 8 MEM_STORE_META_END),
        sizeof_node_id_t + sizeof_LockTableMeta + sizeof_MEM_STORE_META_END) := by
  unfold PrepareLockTableMeta
  simp only []
  have htake : ∀ m : LockTableMeta, m.bytes.take sizeof_LockTableMeta = m.bytes := by
    intro m
    rw [List.take_of_length_le (le_of_eq m.bytes_length)]
  rw [htake]
  have key := writeAt_three
    (malloc junk (sizeof_node_id_t + sizeof_LockTableMeta + sizeof_MEM_STORE_META_END))
    (nodeIdBytes machine_id)
    (LockTableMeta.mk locktable_store.GetAddrPtr locktable_store.GetBucketNum
      locktable_store.GetLockTableNodeSize locktable_store.GetBaseOff).bytes
    (leBytes 8 MEM_STORE_META_END)
    (by simp [malloc, nodeIdBytes_length, LockTableMeta.bytes_length, leBytes_length,
          sizeof_MEM_STORE_META_END])
  rw [nodeIdBytes_length, LockTableMeta.bytes_length] at key
  rw [key]

/-- Decoding a well-laid-out message: a 4-byte block, four 8-byte blocks and
an 8-byte block are recovered by the parser field by field. -/
theorem ParseLockTableMeta_blocks (MEM_STORE_META_END : Nat) (a b1 b2 b3 b4 c : List Nat)
    (ha : a.length = 4) (h1 : b1.length = 8) (h2 : b2.length = 8) (h3 : b3.length = 8)
    (h4 : b4.length = 8) (hc : c.length = 8)
    (hend : leValue c = MEM_STORE_META_END % 2 ^ 64) :
    ParseLockTableMeta MEM_STORE_META_END (a ++ ((b1 ++ (b2 ++ (b3 ++ b4))) ++ c)) =
      some (toSigned sizeof_node_id_t (leValue a),
        ⟨leValue b1, leValue b2, leValue b3, toSigned 8 (leValue b4)⟩) := by
  have hb : (b1 ++ (b2 ++ (b3 ++ b4))).length = 32 := by simp [h1, h2, h3, h4]
  have hlen : (a ++ ((b1 ++ (b2 ++ (b3 ++ b4))) ++ c)).length =
      sizeof_node_id_t + sizeof_LockTableMeta + sizeof_MEM_STORE_META_END := by
    simp [ha, h1, h2, h3, h4, hc, sizeof_node_id_t, sizeof_LockTableMeta,
      sizeof_MEM_STORE_META_END]
  have hdropA : (a ++ ((b1 ++ (b2 ++ (b3 ++ b4))) ++ c)).drop sizeof_node_id_t =
      (b1 ++ (b2 ++ (b3 ++ b4))) ++ c := List.drop_left' ha
  have hbody : ((a ++ ((b1 ++ (b2 ++ (b3 ++ b4))) ++ c)).drop sizeof_node_id_t).take
      sizeof_LockTableMeta = b1 ++ (b2 ++ (b3 ++ b4)) := by
    rw [hdropA]; exact List.take_left' hb
  have hsent : (a ++ ((b1 ++ (b2 ++ (b3 ++ b4))) ++ c)).drop
      (sizeof_node_id_t + sizeof_LockTableMeta) = c := by
    rw [← List.drop_drop, hdropA]; exact List.drop_left' hb
  have hid : (a ++ ((b1 ++ (b2 ++ (b3 ++ b4))) ++ c)).take sizeof_node_id_t = a :=
    List.take_left' ha
  have hf1 : (b1 ++ (b2 ++ (b3 ++ b4))).take 8 = b1 := List.take_left' h1
  have hd1 : (b1 ++ (b2 ++ (b3 ++ b4))).drop 8 = b2 ++ (b3 ++ b4) := List.drop_left' h1
  have hf2 : (b2 ++ (b3 ++ b4)).take 8 = b2 := List.take_left' h2
  have hd2 : (b1 ++ (b2 ++ (b3 ++ b4))).drop 16 = b3 ++ b4 := by
    have : (b1 ++ (b2 ++ (b3 ++ b4))).drop 16 = ((b1 ++ (b2 ++ (b3 ++ b4))).drop 8).drop 8 := by
      rw [List.drop_drop]
    rw [this, hd1]; exact List.drop_left' h2
  have hf3 : (b3 ++ b4).take 8 = b3 := List.take_left' h3
  have hd3 : (b1 ++ (b2 ++ (b3 ++ b4))).drop 24 = b4 := by
    have : (b1 ++ (b2 ++ (b3 ++ b4))).drop 24 = ((b1 ++ (b2 ++ (b3 ++ b4))).drop 16).drop 8 := by
      rw [List.drop_drop]
    rw [this, hd2]; exact List.drop_left' h3
  unfold ParseLockTableMeta
  rw [if_pos hlen]
  simp only [hbody, hsent, hid, hf1, hd1, hf2, hd2, hf3, hd3, hend, if_true]

theorem leValue_leBytes_of_lt (n : Nat) (h : n < 2 ^ 64) : leValue (leBytes 8 n) = n := by
  rw [leValue_leBytes]
  exact Nat.mod_eq_of_lt (by norm_num; omega)

theorem ParseLockTableMeta_PrepareLockTableMeta (MEM_STORE_META_END : Nat) (junk : Nat → Nat)
    (locktable_store : LockTableStore) (machine_id : Int)
    (hid : -(2 : Int) ^ 31 ≤ machine_id ∧ machine_id < (2 : Int) ^ 31)
    (hrange : (LockTableMeta.mk locktable_store.GetAddrPtr locktable_store.GetBucketNum
      locktable_store.GetLockTableNodeSize locktable_store.GetBaseOff).inRange) :
    ParseLockTableMeta MEM_STORE_META_END
        (PrepareLockTableMeta MEM_STORE_META_END junk locktable_store machine_id).1 =
      some (machine_id,
        LockTableMeta.mk locktable_store.GetAddrPtr locktable_store.GetBucketNum
          locktable_store.GetLockTableNodeSize locktable_store.GetBaseOff) := by
  obtain ⟨hp, hb, hn, ho1, ho2⟩ := hrange
  simp only at hp hb hn ho1 ho2
  rw [PrepareLockTableMeta_eq]
  simp only [LockTableMeta.bytes]
  rw [ParseLockTableMeta_blocks MEM_STORE_META_END _ _ _ _ _ _ (nodeIdBytes_length _)
    (leBytes_length _ _) (leBytes_length _ _) (leBytes_length _ _) (leBytes_length _ _)
    (leBytes_length _ _) (by rw [leValue_leBytes]; norm_num)]
  have hu4 : toUnsigned sizeof_node_id_t machine_id < 256 ^ sizeof_node_id_t := by
    unfold toUnsigned sizeof_node_id_t
    have h0 : 0 ≤ machine_id % (2 : Int) ^ (8 * 4) := Int.emod_nonneg _ (by norm_num)
    have h1 : machine_id % (2 : Int) ^ (8 * 4) < (2 : Int) ^ (8 * 4) :=
      Int.emod_lt_of_pos _ (by norm_num)
    norm_num at h0 h1 ⊢
    omega
  have hu8 : toUnsigned 8 locktable_store.GetBaseOff < 2 ^ 64 := by
    unfold toUnsigned
    have h0 : 0 ≤ locktable_store.GetBaseOff % (2 : Int) ^ (8 * 8) :=
      Int.emod_nonneg _ (by norm_num)
    have h1 : locktable_store.GetBaseOff % (2 : Int) ^ (8 * 8) < (2 : Int) ^ (8 * 8) :=
      Int.emod_lt_of_pos _ (by norm_num)
    norm_num at h0 h1 ⊢
    omega
  have e0 : leValue (nodeIdBytes machine_id) = toUnsigned sizeof_node_id_t machine_id := by
    unfold nodeIdBytes
    rw [leValue_leBytes]
    exact Nat.mod_eq_of_lt hu4
  have s0 : toSigned sizeof_node_id_t (toUnsigned sizeof_node_id_t machine_id) = machine_id :=
    toSigned_toUnsigned sizeof_node_id_t (by decide) machine_id
      (by simpa [sizeof_node_id_t] using hid.1) (by simpa [sizeof_node_id_t] using hid.2)
  have s4 : toSigned 8 (toUnsigned 8 locktable_store.GetBaseOff) = locktable_store.GetBaseOff :=
    toSigned_toUnsigned 8 (by decide) _ (by simpa using ho1) (by simpa using ho2)
  rw [e0, s0, leValue_leBytes_of_lt _ hp, leValue_leBytes_of_lt _ hb,
    leValue_leBytes_of_lt _ hn, leValue_leBytes_of_lt _ hu8, s4]

/-- C3: for every machine id, every loaded lock-table structure (and whatever
the fresh allocation held before), `PrepareLockTableMeta` yields
`total_meta_size = sizeof(node_id_t) + sizeof(LockTableMeta) + 8` and a buffer
of exactly that many bytes, made of the bytes of `machine_id`, then the bytes of
the descriptor built from the structure's address, bucket count, node size and
base offset in this order, then the 8 bytes of `MEM_STORE_META_END` as the
final 8 bytes, with nothing between or left over. -/
theorem PrepareLockTableMeta_layout (MEM_STORE_META_END : Nat) (junk : Nat → Nat)
    (locktable_store : LockTableStore) (machine_id : Int) :
    (PrepareLockTableMeta MEM_STORE_META_END junk locktable_store machine_id).2 =
        sizeof_node_id_t + sizeof_LockTableMeta + 8 ∧
    (PrepareLockTableMeta MEM_STORE_META_END junk locktable_store machine_id).1.length =
        (PrepareLockTableMeta MEM_STORE_META_END junk locktable_store machine_id).2 ∧
    (PrepareLockTableMeta MEM_STORE_META_END junk locktable_store machine_id).1 =
        nodeIdBytes machine_id ++
          ((leBytes 8 locktable_store.GetAddrPtr ++ (leBytes 8 locktable_store.GetBucketNum ++
            (leBytes 8 locktable_store.GetLockTableNodeSize ++
              leBytes 8 (toUnsigned 8 locktable_store.GetBaseOff)))) ++
            leBytes 8 MEM_STORE_META_END) ∧
    (nodeIdBytes machine_id).length = sizeof_node_id_t ∧
    (leBytes 8 locktable_store.GetAddrPtr ++ (leBytes 8 locktable_store.GetBucketNum ++
        (leBytes 8 locktable_store.GetLockTableNodeSize ++
          leBytes 8 (toUnsigned 8 locktable_store.GetBaseOff)))).length =
      sizeof_LockTableMeta ∧
    (PrepareLockTableMeta MEM_STORE_META_END junk locktable_store machine_id).1.drop
        ((PrepareLockTableMeta MEM_STORE_META_END junk locktable_store machine_id).2 - 8) =
      leBytes 8 MEM_STORE_META_END ∧
    leValue (leBytes 8 MEM_STORE_META_END) = MEM_STORE_META_END % 2 ^ 64 := by
  have hmeta := LockTableMeta.bytes_length
    (LockTableMeta.mk locktable_store.GetAddrPtr locktable_store.GetBucketNum
      locktable_store.GetLockTableNodeSize locktable_store.GetBaseOff)
  simp only [LockTableMeta.bytes] at hmeta
  rw [PrepareLockTableMeta_eq]
  simp only [LockTableMeta.bytes, sizeof_MEM_STORE_META_END]
  refine ⟨trivial, ?_, trivial, nodeIdBytes_length _, hmeta, ?_, ?_⟩
  · simp only [List.length_append, nodeIdBytes_length, hmeta, leBytes_length]
    omega
  · rw [Nat.add_sub_cancel, ← List.append_assoc]
    exact List.drop_left' (by rw [List.length_append, nodeIdBytes_length, hmeta])
  · rw [leValue_leBytes]; norm_num

/-- C4: for every node id (an `int`) and every descriptor whose fields fit
their 8 bytes, decoding the message built by `PrepareLockTableMeta` along the
wire layout (node id, descriptor, 8-byte sentinel) passes the sentinel check
and gives back the same node id and the same (address, bucket count, element
size, base offset); hence two messages are equal only if node id and
descriptor are. -/
theorem PrepareLockTableMeta_parse_roundtrip (MEM_STORE_META_END : Nat) (junk : Nat → Nat)
    (locktable_store : LockTableStore) (machine_id : Int)
    (hid : -(2 : Int) ^ 31 ≤ machine_id ∧ machine_id < (2 : Int) ^ 31)
    (hrange : (LockTableMeta.mk locktable_store.GetAddrPtr locktable_store.GetBucketNum
      locktable_store.GetLockTableNodeSize locktable_store.GetBaseOff).inRange) :
    ParseLockTableMeta MEM_STORE_META_END
        (PrepareLockTableMeta MEM_STORE_META_END junk locktable_store machine_id).1 =
      some (machine_id,
        LockTableMeta.mk locktable_store.GetAddrPtr locktable_store.GetBucketNum
          locktable_store.GetLockTableNodeSize locktable_store.GetBaseOff) ∧
    ∀ (junk2 : Nat → Nat) (store2 : LockTableStore) (machine_id2 : Int),
      (-(2 : Int) ^ 31 ≤ machine_id2 ∧ machine_id2 < (2 : Int) ^ 31) →
      (LockTableMeta.mk store2.GetAddrPtr store2.GetBucketNum
        store2.GetLockTableNodeSize store2.GetBaseOff).inRange →
      (PrepareLockTableMeta MEM_STORE_META_END junk2 store2 machine_id2).1 =
        (PrepareLockTableMeta MEM_STORE_META_END junk locktable_store machine_id).1 →
      machine_id2 = machine_id ∧
        LockTableMeta.mk store2.GetAddrPtr store2.GetBucketNum
            store2.GetLockTableNodeSize store2.GetBaseOff =
          LockTableMeta.mk locktable_store.GetAddrPtr locktable_store.GetBucketNum
            locktable_store.GetLockTableNodeSize locktable_store.GetBaseOff := by
  have h1 := ParseLockTableMeta_PrepareLockTableMeta MEM_STORE_META_END junk locktable_store
    machine_id hid hrange
  refine ⟨h1, ?_⟩
  intro junk2 store2 machine_id2 hid2 hrange2 heq
  have h2 := ParseLockTableMeta_PrepareLockTableMeta MEM_STORE_META_END junk2 store2
    machine_id2 hid2 hrange2
  rw [heq, h1] at h2
  have h3 := Option.some.inj h2
  exact ⟨(congrArg Prod.fst h3).symm, (congrArg Prod.snd h3).symm⟩

/-- Witness for C4: node 3, a table at address `0x7f0000001000` with 196608
buckets of 4096 bytes at offset 0, sentinel `0xE0FF0E0F`. -/
theorem PrepareLockTableMeta_parse_roundtrip_witness :
    ParseLockTableMeta 0xE0FF0E0F
        (PrepareLockTableMeta 0xE0FF0E0F (fun _ => 0xAA)
          ⟨0x7f0000001000, 196608, 4096, 0⟩ 3).1 =
      some (3, ⟨0x7f0000001000, 196608, 4096, 0⟩) :=
  (PrepareLockTableMeta_parse_roundtrip 0xE0FF0E0F (fun _ => 0xAA)
    ⟨0x7f0000001000, 196608, 4096, 0⟩ 3 (by decide)
    (by simp only [LockTableMeta.inRange]; decide)).1

/-! ## Properties of the `double` arithmetic and of `AllocMem` -/

/-- A number with at most 53 significant bits is a binary64 value: rounding
leaves it alone. -/
theorem roundToDouble_exact (m j : Nat) (hm : m < 2 ^ 53) :
    roundToDouble (m * 2 ^ j) = m * 2 ^ j := by
  unfold roundToDouble
  by_cases hsmall : m * 2 ^ j < 2 ^ 53
  · rw [if_pos hsmall]
  · rw [if_neg hsmall]
    have hne : m * 2 ^ j ≠ 0 := by
      intro h0
      rw [h0] at hsmall
      exact hsmall (by positivity)
    have hlt : m * 2 ^ j < 2 ^ (53 + j) := by
      rw [pow_add]
      exact Nat.mul_lt_mul_of_pos_right hm (by positivity)
    have hlog : Nat.log2 (m * 2 ^ j) < 53 + j := (Nat.log2_lt hne).2 hlt
    have hle : Nat.log2 (m * 2 ^ j) - 52 ≤ j := by omega
    have hdvd : 2 ^ (Nat.log2 (m * 2 ^ j) - 52) ∣ m * 2 ^ j :=
      Dvd.dvd.mul_left (Nat.pow_dvd_pow 2 hle) m
    have hpos : 0 < 2 ^ (Nat.log2 (m * 2 ^ j) - 52) := by positivity
    have hr : m * 2 ^ j % 2 ^ (Nat.log2 (m * 2 ^ j) - 52) = 0 := Nat.mod_eq_zero_of_dvd hdvd
    simp only [hr, Nat.mul_zero, hpos, if_true]
    exact Nat.div_mul_cancel hdvd

/-- For a page-aligned size whose three quarters fit `offset_t`, the `double`
computation of `reserve_start` is exact. -/
theorem reserve_start_exact (s : Nat) (hpage : 4096 ∣ s) (hfit : 3 * s / 4 < 2 ^ 63) :
    reserve_start s = some (3 * s / 4) := by
  obtain ⟨m, rfl⟩ := hpage
  have hm : 3 * m < 2 ^ 53 := by
    have h4 : 3 * (4096 * m) / 4 = 3072 * m := by omega
    rw [h4] at hfit
    norm_num at hfit ⊢
    omega
  have e1 : size_t_to_double (4096 * m) = 4096 * m := by
    have := roundToDouble_exact m 12 (by omega)
    norm_num at this
    rw [Nat.mul_comm] at this
    exact this
  have e2 : mul_0_75 (4096 * m) = 3 * (4096 * m) := by
    have := roundToDouble_exact (3 * m) 12 hm
    norm_num at this
    unfold mul_0_75
    have h3 : 3 * (4096 * m) = 3 * m * 4096 := by ring
    rw [h3]
    exact this
  unfold reserve_start
  rw [e1, e2]
  unfold double_to_offset_t
  rw [if_pos hfit]

/-- C5: for every buffer size `s` that is a multiple of the 4096-byte page
size (and whose reserve offset fits the signed 64-bit `offset_t`, as every
size `malloc` can serve does), `AllocMem` completes once `malloc` succeeds and
sets `lock_table_reserve_buffer = lock_table_bucket_buffer + 3*s/4`, where
`3*s/4` is exactly 0.75 of `s`: neither the multiplication by 0.75 in `double`
nor the truncation loses anything.  For `s` = 1 GiB the offset is 805306368. -/
theorem AllocMem_reserve_at_three_quarters (env : Env) (w : World) (s : Nat)
    (hs : w.server.lock_table_buf_size = s) (hpage : 4096 ∣ s)
    (hfit : 3 * s / 4 < 2 ^ 63) (hmalloc : env.malloc_result ≠ 0) :
    reserve_start s = some (3 * s / 4) ∧ 4 * (3 * s / 4) = 3 * s ∧
    (∃ w2 : World, AllocMem env w = .ok w2 ∧
      w2.server.lock_table_bucket_buffer = env.malloc_result ∧
      w2.server.lock_table_reserve_buffer = w2.server.lock_table_bucket_buffer + 3 * s / 4 ∧
      w2.server.lock_table_buf_size = s) ∧
    reserve_start (1024 * 1024 * 1024) = some 805306368 := by
  have hrs := reserve_start_exact s hpage hfit
  refine ⟨hrs, ?_, ?_, ?_⟩
  · obtain ⟨m, rfl⟩ := hpage
    omega
  · unfold AllocMem
    simp only [World.emit, hs, hrs, if_neg hmalloc]
    exact ⟨_, rfl, rfl, rfl, rfl⟩
  · exact reserve_start_exact _ ⟨262144, by norm_num⟩ (by norm_num)

/-- Witness for C5: a 1 GiB buffer allocated at `0x7f0000000000`. -/
theorem AllocMem_reserve_at_three_quarters_witness :
    ∃ w2 : World,
      AllocMem ⟨0xE0FF0E0F, 5, 4096, 0x7f0000000000, true, fun _ => 0⟩
        ⟨LockTableServer.new 0 12345 12346 1073741824, [], 0⟩ = .ok w2 ∧
      w2.server.lock_table_bucket_buffer = 0x7f0000000000 ∧
      w2.server.lock_table_reserve_buffer = w2.server.lock_table_bucket_buffer +
        3 * 1073741824 / 4 ∧
      w2.server.lock_table_buf_size = 1073741824 :=
  (AllocMem_reserve_at_three_quarters
    ⟨0xE0FF0E0F, 5, 4096, 0x7f0000000000, true, fun _ => 0⟩
    ⟨LockTableServer.new 0 12345 12346 1073741824, [], 0⟩ 1073741824 rfl
    ⟨262144, by norm_num⟩ (by norm_num) (by decide)).2.2.1

/-! ## Properties of the server methods and of `main` -/

theorem sendToAll_eq (buf : List Nat) (size : Nat) (n : Nat) (w : World) :
    sendToAll buf size n w =
      { w with trace := w.trace ++ List.replicate n (Event.SendLockTableMeta buf size) } := by
  induction n generalizing w with
  | zero => simp [sendToAll]
  | succ n ih =>
    rw [sendToAll, ih]
    simp [World.emit, List.replicate_succ]

theorem PrepareLockTableMeta_size_ne_zero (e : Nat) (junk : Nat → Nat) (st : LockTableStore)
    (id : Int) : (PrepareLockTableMeta e junk st id).2 ≠ 0 := by
  rw [PrepareLockTableMeta_eq]
  simp [sizeof_node_id_t]

theorem SendMeta_eq (env : Env) (machine_id : Int) (n : Nat) (w : World) (st : LockTableStore)
    (hst : w.server.locktable_store = some st) :
    SendMeta env machine_id n w = .ok { w with trace := w.trace ++
      ([Event.SendMeta machine_id n] ++ List.replicate n (Event.SendLockTableMeta
        (PrepareLockTableMeta env.MEM_STORE_META_END env.junk st machine_id).1
        (PrepareLockTableMeta env.MEM_STORE_META_END env.junk st machine_id).2)) } := by
  unfold SendMeta
  simp only [World.emit, hst, if_neg (PrepareLockTableMeta_size_ne_zero _ _ _ _), sendToAll_eq,
    List.append_assoc]

theorem roundBody_eq (env : Env) (cfg : Config) (b : Int) (r : Nat) (w : World)
    (hw : w.server = serverInService env cfg b r) :
    roundBody env b cfg.machine_id cfg.compute_node_num w =
      .ok { w with trace := w.trace ++ roundEvents env cfg b r } := by
  obtain ⟨srv, tr, pos⟩ := w
  simp only at hw
  subst hw
  unfold roundBody
  simp only [InitMem, CleanLockTable, CleanQP, World.emit, serverInService, LoadLockTable]
  rw [SendMeta_eq env cfg.machine_id cfg.compute_node_num _ (loadedStore env b r) rfl]
  simp only [roundEvents, sendMetaEvents, List.append_assoc, List.cons_append, List.nil_append,
    loadedStore]

theorem firstRound_eq (env : Env) (cfg : Config) (b : Int) (r : Nat)
    (hid : 0 ≤ cfg.machine_id ∧ cfg.machine_id < cfg.machine_num)
    (hmalloc : env.malloc_result ≠ 0) (hreg : env.register_memory_ok = true)
    (hr : reserve_start (mem_size_of cfg.mem_size_GB) = some r)
    (hb : bucket_num_of (mem_size_of cfg.mem_size_GB) = some b) :
    firstRound env cfg =
      .ok (b, ⟨serverInService env cfg b r, firstRoundEvents env cfg b r, 0⟩) := by
  unfold firstRound
  rw [if_pos hid]
  simp only [AllocMem, World.emit, LockTableServer.new, if_neg hmalloc, hr, hb, InitMem,
    LoadLockTable]
  rw [SendMeta_eq env cfg.machine_id cfg.compute_node_num _ (loadedStore env b r) rfl]
  simp only [InitRDMA, World.emit, hreg, if_true]
  simp only [serverInService, firstRoundEvents, sendMetaEvents, List.append_assoc,
    List.cons_append, List.nil_append, loadedStore]

theorem firstRound_ok_inv (env : Env) (cfg : Config) (b : Int) (w : World)
    (h : firstRound env cfg = .ok (b, w)) :
    ∃ r, (0 ≤ cfg.machine_id ∧ cfg.machine_id < cfg.machine_num) ∧ env.malloc_result ≠ 0 ∧
      env.register_memory_ok = true ∧
      reserve_start (mem_size_of cfg.mem_size_GB) = some r ∧
      bucket_num_of (mem_size_of cfg.mem_size_GB) = some b ∧
      w = ⟨serverInService env cfg b r, firstRoundEvents env cfg b r, 0⟩ := by
  by_cases hid : 0 ≤ cfg.machine_id ∧ cfg.machine_id < cfg.machine_num
  · by_cases hmalloc : env.malloc_result = 0
    · simp [firstRound, hid, AllocMem, hmalloc] at h
    · cases hr : reserve_start (mem_size_of cfg.mem_size_GB) with
      | none => simp [firstRound, hid, AllocMem, hmalloc, World.emit, LockTableServer.new, hr] at h
      | some r =>
        cases hb : bucket_num_of (mem_size_of cfg.mem_size_GB) with
        | none =>
          simp [firstRound, hid, AllocMem, hmalloc, World.emit, LockTableServer.new, hr, hb] at h
        | some b2 =>
          by_cases hreg : env.register_memory_ok = true
          · rw [firstRound_eq env cfg b2 r hid hmalloc hreg hr hb] at h
            have h2 := Except.ok.inj h
            have hb2 : b2 = b := congrArg Prod.fst h2
            subst hb2
            exact ⟨r, hid, hmalloc, hreg, rfl, rfl, (congrArg Prod.snd h2).symm⟩
          · exfalso
            unfold firstRound at h
            rw [if_pos hid] at h
            simp only [AllocMem, World.emit, LockTableServer.new, if_neg hmalloc, hr, hb, InitMem,
              LoadLockTable] at h
            rw [SendMeta_eq env cfg.machine_id cfg.compute_node_num _ (loadedStore env b2 r)
              rfl] at h
            simp [InitRDMA, World.emit, hreg] at h
  · simp [firstRound, hid] at h

theorem RunLoop_first (stdin : Nat → Char) (i : Nat) (fuel : Nat) (w : World)
    (hnoise : ∀ j, j < i → stdin (w.stdin_pos + j) ≠ 'c' ∧ stdin (w.stdin_pos + j) ≠ 'q')
    (hcmd : stdin (w.stdin_pos + i) = 'c' ∨ stdin (w.stdin_pos + i) = 'q')
    (hfuel : i < fuel) :
    RunLoop stdin fuel w = .ok (decide (stdin (w.stdin_pos + i) = 'c'),
      ⟨w.server, w.trace ++ (rePrompts stdin w.stdin_pos i ++
        [Event.scanf (stdin (w.stdin_pos + i))]), w.stdin_pos + i + 1⟩) := by
  induction i generalizing fuel w with
  | zero =>
    obtain ⟨fuel, rfl⟩ : ∃ f, fuel = f + 1 := ⟨fuel - 1, by omega⟩
    rw [Nat.add_zero] at hcmd ⊢
    unfold RunLoop
    rcases hcmd with hc | hq
    · simp [hc, World.emit, rePrompts]
    · simp [hq, World.emit, rePrompts]
  | succ i ih =>
    obtain ⟨fuel, rfl⟩ : ∃ f, fuel = f + 1 := ⟨fuel - 1, by omega⟩
    have h0 := hnoise 0 (by omega)
    rw [Nat.add_zero] at h0
    unfold RunLoop
    simp only [h0.1, h0.2, if_false]
    have hshift : ∀ j, w.stdin_pos + 1 + j = w.stdin_pos + (j + 1) := by intro j; omega
    rw [ih fuel _ (by
        intro j hj
        simp only [World.emit, hshift]
        exact hnoise (j + 1) (by omega))
      (by simpa only [World.emit, hshift] using hcmd) (by omega)]
    simp only [World.emit, hshift, rePrompts, List.append_assoc, List.cons_append,
      List.nil_append]

theorem RunLoop_never (stdin : Nat → Char) (fuel : Nat) (w : World)
    (hnoise : ∀ j, stdin (w.stdin_pos + j) ≠ 'c' ∧ stdin (w.stdin_pos + j) ≠ 'q') :
    RunLoop stdin fuel w = .error .out_of_fuel := by
  induction fuel generalizing w with
  | zero => rfl
  | succ fuel ih =>
    have h0 := hnoise 0
    rw [Nat.add_zero] at h0
    unfold RunLoop
    simp only [h0.1, h0.2, if_false]
    apply ih
    intro j
    have := hnoise (j + 1)
    have hshift : w.stdin_pos + 1 + j = w.stdin_pos + (j + 1) := by omega
    simpa only [World.emit, hshift] using this

theorem rePrompts_count_printf (stdin : Nat → Char) (pos n : Nat) :
    (rePrompts stdin pos n).count Event.printf = n := by
  induction n generalizing pos with
  | zero => rfl
  | succ n ih =>
    rw [rePrompts, List.count_append, ih]
    simp [List.count_cons]
    omega

theorem rePrompts_length (stdin : Nat → Char) (pos n : Nat) :
    (rePrompts stdin pos n).length = 3 * n := by
  induction n generalizing pos with
  | zero => rfl
  | succ n ih =>
    rw [rePrompts, List.length_append, ih]
    simp only [List.length_cons, List.length_nil]
    omega

theorem withoutConsole_append (t1 t2 : List Event) :
    withoutConsole (t1 ++ t2) = withoutConsole t1 ++ withoutConsole t2 := by
  simp [withoutConsole]

theorem withoutConsole_sendMetaEvents (env : Env) (cfg : Config) (b : Int) (r : Nat) :
    withoutConsole (sendMetaEvents env cfg b r) = sendMetaEvents env cfg b r := by
  simp [withoutConsole, sendMetaEvents, List.filter_cons, List.filter_replicate, Event.isConsole]

theorem withoutConsole_roundEvents (env : Env) (cfg : Config) (b : Int) (r : Nat) :
    withoutConsole (roundEvents env cfg b r) = roundEvents env cfg b r := by
  rw [roundEvents, withoutConsole_append, withoutConsole_sendMetaEvents]
  simp [withoutConsole, Event.isConsole]

theorem withoutConsole_firstRoundEvents (env : Env) (cfg : Config) (b : Int) (r : Nat) :
    withoutConsole (firstRoundEvents env cfg b r) = firstRoundEvents env cfg b r := by
  rw [firstRoundEvents, withoutConsole_append, withoutConsole_append,
    withoutConsole_sendMetaEvents]
  simp [withoutConsole, Event.isConsole]

theorem count_eq_zero_of_withoutConsole (t : List Event) (ht : withoutConsole t = t)
    (e : Event) (he : e.isConsole = true) : t.count e = 0 := by
  rw [← ht, List.count_eq_zero]
  intro hmem
  have := (List.mem_filter.1 hmem).2
  simp [he] at this

theorem RunLoop_console (stdin : Nat → Char) (fuel : Nat) (w w2 : World) (flag : Bool)
    (h : RunLoop stdin fuel w = .ok (flag, w2)) :
    w2.server = w.server ∧ withoutConsole w2.trace = withoutConsole w.trace ∧
      w2.trace.count (Event.scanf 'c') =
        w.trace.count (Event.scanf 'c') + (if flag = true then 1 else 0) := by
  induction fuel generalizing w with
  | zero => simp [RunLoop] at h
  | succ fuel ih =>
    unfold RunLoop at h
    by_cases hq : stdin w.stdin_pos = 'q'
    · simp only [hq, if_true] at h
      have h2 := Except.ok.inj h
      have h3 : w2 = _ := (congrArg Prod.snd h2).symm
      have h4 : flag = false := (congrArg Prod.fst h2).symm
      subst h3 h4
      simp [World.emit, withoutConsole, Event.isConsole, List.count_cons]
    · by_cases hc : stdin w.stdin_pos = 'c'
      · simp only [hc, if_true] at h
        have hcq : ¬ ('c' : Char) = 'q' := by decide
        simp only [hcq, if_false] at h
        have h2 := Except.ok.inj h
        have h3 : w2 = _ := (congrArg Prod.snd h2).symm
        have h4 : flag = true := (congrArg Prod.fst h2).symm
        subst h3 h4
        simp [World.emit, withoutConsole, Event.isConsole, List.count_cons]
      · simp only [hq, hc, if_false] at h
        have := ih _ h
        simpa [World.emit, withoutConsole, Event.isConsole, List.count_cons, hc] using this

theorem Run_console (stdin : Nat → Char) (fuel : Nat) (w w2 : World) (flag : Bool)
    (h : Run stdin fuel w = .ok (flag, w2)) :
    w2.server = w.server ∧ withoutConsole w2.trace = withoutConsole w.trace ++ [Event.Run] ∧
      w2.trace.count (Event.scanf 'c') =
        w.trace.count (Event.scanf 'c') + (if flag = true then 1 else 0) := by
  unfold Run at h
  have := RunLoop_console stdin fuel _ w2 flag h
  simpa [World.emit, withoutConsole, Event.isConsole, List.count_cons] using this

theorem Run_at_command (stdin : Nat → Char) (fuel : Nat) (w : World)
    (hcmd : stdin w.stdin_pos = 'c' ∨ stdin w.stdin_pos = 'q') (hfuel : 0 < fuel) :
    Run stdin fuel w = .ok (decide (stdin w.stdin_pos = 'c'),
      ⟨w.server, w.trace ++ [Event.Run, Event.printf, Event.printf,
        Event.scanf (stdin w.stdin_pos)], w.stdin_pos + 1⟩) := by
  unfold Run
  rw [RunLoop_first stdin 0 fuel _ (by intro j hj; omega)
    (by simpa only [World.emit, Nat.add_zero] using hcmd) hfuel]
  simp only [World.emit, rePrompts, List.append_assoc, List.cons_append, List.nil_append,
    Nat.add_zero]

theorem roundLoop_ok (env : Env) (cfg : Config) (b : Int) (r : Nat) (stdin : Nat → Char)
    (runFuel fuel : Nat) (flag : Bool) (w w2 : World)
    (hw : w.server = serverInService env cfg b r)
    (h : roundLoop env b cfg.machine_id cfg.compute_node_num stdin runFuel fuel flag w = .ok w2) :
    w2.server = serverInService env cfg b r ∧
    ∃ j, withoutConsole w2.trace =
        withoutConsole w.trace ++ repeatBlock j (roundEvents env cfg b r ++ [Event.Run]) ∧
      w2.trace.count (Event.scanf 'c') + (if flag = true then 1 else 0) =
        w.trace.count (Event.scanf 'c') + j := by
  induction fuel generalizing flag w with
  | zero =>
    cases flag with
    | false =>
      simp only [roundLoop] at h
      have := Except.ok.inj h
      subst this
      exact ⟨hw, 0, by simp [repeatBlock], by simp⟩
    | true => simp [roundLoop] at h
  | succ fuel ih =>
    cases flag with
    | false =>
      simp only [roundLoop] at h
      have := Except.ok.inj h
      subst this
      exact ⟨hw, 0, by simp [repeatBlock], by simp⟩
    | true =>
      simp only [roundLoop] at h
      rw [roundBody_eq env cfg b r w hw] at h
      simp only at h
      cases hrun : Run stdin runFuel { w with trace := w.trace ++ roundEvents env cfg b r } with
      | error e => simp [hrun] at h
      | ok res =>
        obtain ⟨flag2, w3⟩ := res
        simp only [hrun] at h
        obtain ⟨hs3, ht3, hc3⟩ := Run_console stdin runFuel _ w3 flag2 hrun
        obtain ⟨hs2, j, ht2, hc2⟩ := ih flag2 w3 (hs3.trans hw) h
        refine ⟨hs2, j + 1, ?_, ?_⟩
        · rw [ht2, ht3]
          simp only [withoutConsole_append, withoutConsole_roundEvents, repeatBlock,
            List.append_assoc]
        · have hz := count_eq_zero_of_withoutConsole (roundEvents env cfg b r)
            (withoutConsole_roundEvents env cfg b r) (Event.scanf 'c') rfl
          simp only [List.count_append, hz, Nat.add_zero] at hc3
          simp only [if_true]
          omega

theorem withoutConsole_run_events (ch : Char) :
    withoutConsole [Event.Run, Event.printf, Event.printf, Event.scanf ch] = [Event.Run] := by
  simp [withoutConsole, Event.isConsole]

theorem roundLoop_false (env : Env) (b : Int) (machine_id : Int) (n : Nat) (stdin : Nat → Char)
    (runFuel fuel : Nat) (w : World) :
    roundLoop env b machine_id n stdin runFuel fuel false w = .ok w := by
  cases fuel <;> rfl

theorem roundLoop_commands (env : Env) (cfg : Config) (b : Int) (r : Nat) (stdin : Nat → Char)
    (runFuel : Nat) (hrun : 0 < runFuel) (j fuel : Nat) (w : World)
    (hw : w.server = serverInService env cfg b r)
    (hc : ∀ i, i < j → stdin (w.stdin_pos + i) = 'c')
    (hq : stdin (w.stdin_pos + j) = 'q') (hfuel : j < fuel) :
    ∃ w2, roundLoop env b cfg.machine_id cfg.compute_node_num stdin runFuel fuel true w =
        .ok w2 ∧
      w2.server = serverInService env cfg b r ∧
      w2.stdin_pos = w.stdin_pos + j + 1 ∧
      withoutConsole w2.trace = withoutConsole w.trace ++
        repeatBlock (j + 1) (roundEvents env cfg b r ++ [Event.Run]) := by
  induction j generalizing fuel w with
  | zero =>
    obtain ⟨fuel, rfl⟩ : ∃ f, fuel = f + 1 := ⟨fuel - 1, by omega⟩
    rw [Nat.add_zero] at hq
    simp only [roundLoop]
    rw [roundBody_eq env cfg b r w hw]
    simp only
    rw [Run_at_command stdin runFuel ⟨w.server, w.trace ++ roundEvents env cfg b r, w.stdin_pos⟩
      (Or.inr hq) hrun]
    simp only [hq]
    have hflag : decide (('q' : Char) = 'c') = false := by decide
    rw [hflag, roundLoop_false]
    refine ⟨_, rfl, hw, rfl, ?_⟩
    simp only [withoutConsole_append, withoutConsole_roundEvents, withoutConsole_run_events,
      repeatBlock, List.append_nil, List.append_assoc]
  | succ j ih =>
    obtain ⟨fuel, rfl⟩ : ∃ f, fuel = f + 1 := ⟨fuel - 1, by omega⟩
    have h0 : stdin w.stdin_pos = 'c' := by
      have := hc 0 (by omega)
      rwa [Nat.add_zero] at this
    simp only [roundLoop]
    rw [roundBody_eq env cfg b r w hw]
    simp only
    rw [Run_at_command stdin runFuel ⟨w.server, w.trace ++ roundEvents env cfg b r, w.stdin_pos⟩
      (Or.inl h0) hrun]
    simp only [h0, decide_True]
    have hshift : ∀ i, w.stdin_pos + 1 + i = w.stdin_pos + (i + 1) := by intro i; omega
    obtain ⟨w2, hok, hs, hp, ht⟩ := ih fuel
      ⟨w.server, w.trace ++ roundEvents env cfg b r ++
        [Event.Run, Event.printf, Event.printf, Event.scanf 'c'], w.stdin_pos + 1⟩ hw
      (by intro i hi; simp only [hshift]; exact hc (i + 1) (by omega))
      (by simp only [hshift]; exact hq) (by omega)
    refine ⟨w2, hok, hs, ?_, ?_⟩
    · rw [hp]; simp only; omega
    · rw [ht]
      simp only [withoutConsole_append, withoutConsole_roundEvents, List.append_assoc]
      rw [withoutConsole_run_events]
      conv_rhs => rw [repeatBlock]
      simp only [List.append_assoc]

theorem main_ok (env : Env) (cfg : Config) (stdin : Nat → Char) (fuel : Nat) (w : World)
    (h : main env cfg stdin fuel = .ok w) :
    ∃ (b : Int) (r j : Nat),
      (0 ≤ cfg.machine_id ∧ cfg.machine_id < cfg.machine_num) ∧ env.malloc_result ≠ 0 ∧
      env.register_memory_ok = true ∧
      reserve_start (mem_size_of cfg.mem_size_GB) = some r ∧
      bucket_num_of (mem_size_of cfg.mem_size_GB) = some b ∧
      w.server = serverInService env cfg b r ∧
      withoutConsole w.trace = firstRoundEvents env cfg b r ++
        ([Event.Run] ++ repeatBlock j (roundEvents env cfg b r ++ [Event.Run])) ∧
      w.trace.count (Event.scanf 'c') = j := by
  unfold main at h
  cases hfirst : firstRound env cfg with
  | error e => simp [hfirst] at h
  | ok res =>
    obtain ⟨b, w1⟩ := res
    simp only [hfirst] at h
    obtain ⟨r, hid, hmalloc, hreg, hr, hb, hw1⟩ := firstRound_ok_inv env cfg b w1 hfirst
    cases hrun : Run stdin fuel w1 with
    | error e => simp [hrun] at h
    | ok res2 =>
      obtain ⟨flag, w2⟩ := res2
      simp only [hrun] at h
      obtain ⟨hs2, ht2, hc2⟩ := Run_console stdin fuel w1 w2 flag hrun
      have hs2b : w2.server = serverInService env cfg b r := by rw [hs2, hw1]
      obtain ⟨hs, j, ht, hc⟩ := roundLoop_ok env cfg b r stdin fuel fuel flag w2 w hs2b h
      refine ⟨b, r, j, hid, hmalloc, hreg, hr, hb, hs, ?_, ?_⟩
      · rw [ht, ht2, hw1]
        simp only [withoutConsole_firstRoundEvents, List.append_assoc]
      · have hz := count_eq_zero_of_withoutConsole (firstRoundEvents env cfg b r)
          (withoutConsole_firstRoundEvents env cfg b r) (Event.scanf 'c') rfl
        rw [hw1] at hc2
        simp only [hz, Nat.zero_add] at hc2
        omega

theorem main_commands (env : Env) (cfg : Config) (stdin : Nat → Char) (k fuel : Nat)
    (b : Int) (r : Nat)
    (hid : 0 ≤ cfg.machine_id ∧ cfg.machine_id < cfg.machine_num)
    (hmalloc : env.malloc_result ≠ 0) (hreg : env.register_memory_ok = true)
    (hr : reserve_start (mem_size_of cfg.mem_size_GB) = some r)
    (hb : bucket_num_of (mem_size_of cfg.mem_size_GB) = some b)
    (hc : ∀ i, i < k → stdin i = 'c') (hq : stdin k = 'q') (hfuel : k < fuel) :
    ∃ w, main env cfg stdin fuel = .ok w ∧
      w.server = serverInService env cfg b r ∧
      w.stdin_pos = k + 1 ∧
      withoutConsole w.trace = firstRoundEvents env cfg b r ++
        ([Event.Run] ++ repeatBlock k (roundEvents env cfg b r ++ [Event.Run])) := by
  unfold main
  rw [firstRound_eq env cfg b r hid hmalloc hreg hr hb]
  simp only
  cases k with
  | zero =>
    rw [Run_at_command stdin fuel
      ⟨serverInService env cfg b r, firstRoundEvents env cfg b r, 0⟩ (Or.inr hq) hfuel]
    simp only [hq]
    have hflag : decide (('q' : Char) = 'c') = false := by decide
    rw [hflag, roundLoop_false]
    refine ⟨_, rfl, rfl, rfl, ?_⟩
    simp only [withoutConsole_append, withoutConsole_firstRoundEvents,
      withoutConsole_run_events, repeatBlock, List.append_nil]
  | succ k =>
    have h0 : stdin 0 = 'c' := hc 0 (by omega)
    rw [Run_at_command stdin fuel
      ⟨serverInService env cfg b r, firstRoundEvents env cfg b r, 0⟩ (Or.inl h0) (by omega)]
    simp only [h0, decide_True]
    obtain ⟨w2, hok, hs, hp, ht⟩ := roundLoop_commands env cfg b r stdin fuel (by omega) k fuel
      ⟨serverInService env cfg b r, firstRoundEvents env cfg b r ++
        [Event.Run, Event.printf, Event.printf, Event.scanf 'c'], 0 + 1⟩ rfl
      (by intro i hi; simp only; rw [Nat.add_comm (0 + 1) i]; exact hc (i + 1) (by omega))
      (by simp only; rw [Nat.add_comm (0 + 1) k]; exact hq) (by omega)
    refine ⟨w2, hok, hs, ?_, ?_⟩
    · rw [hp]; simp only; omega
    · rw [ht]
      simp only [withoutConsole_append, withoutConsole_firstRoundEvents, List.append_assoc]
      rw [withoutConsole_run_events]

theorem filter_withoutConsole (P : Event → Bool)
    (hP : ∀ e, P e = true → e.isConsole = false) (t : List Event) :
    (withoutConsole t).filter P = t.filter P := by
  induction t with
  | nil => rfl
  | cons e t ih =>
    unfold withoutConsole at ih ⊢
    by_cases hc : e.isConsole = true
    · have hPe : P e = false := by
        cases hpe : P e with
        | false => rfl
        | true => rw [hP e hpe] at hc; exact absurd hc (by decide)
      simp [List.filter_cons, hc, hPe, ih]
    · have hc2 : e.isConsole = false := by simpa using hc
      simp only [List.filter_cons, hc2, Bool.not_false, if_true, ih]

theorem methodCalls_withoutConsole (t : List Event) :
    methodCalls (withoutConsole t) = methodCalls t := by
  unfold methodCalls
  apply filter_withoutConsole
  intro e he
  cases e <;> simp [Event.isMethod, Event.isConsole] at he ⊢

theorem resources_withoutConsole (t : List Event) :
    (withoutConsole t).filter Event.isResource = t.filter Event.isResource := by
  apply filter_withoutConsole
  intro e he
  cases e <;> simp [Event.isResource, Event.isConsole] at he ⊢

theorem filter_repeatBlock (P : Event → Bool) (n : Nat) (blk : List Event) :
    (repeatBlock n blk).filter P = repeatBlock n (blk.filter P) := by
  induction n with
  | zero => rfl
  | succ n ih => simp only [repeatBlock, List.filter_append, ih]

theorem count_repeatBlock (e : Event) (n : Nat) (blk : List Event) :
    (repeatBlock n blk).count e = n * blk.count e := by
  induction n with
  | zero => simp [repeatBlock]
  | succ n ih =>
    simp only [repeatBlock, List.count_append, ih]
    ring

theorem methodCalls_sendMetaEvents (env : Env) (cfg : Config) (b : Int) (r : Nat) :
    methodCalls (sendMetaEvents env cfg b r) =
      [Event.SendMeta cfg.machine_id cfg.compute_node_num] := by
  simp [methodCalls, sendMetaEvents, List.filter_cons, List.filter_replicate, Event.isMethod]

theorem methodCalls_firstRoundEvents (env : Env) (cfg : Config) (b : Int) (r : Nat) :
    methodCalls (firstRoundEvents env cfg b r) =
      [Event.AllocMem, Event.InitMem, Event.LoadLockTable b,
        Event.SendMeta cfg.machine_id cfg.compute_node_num, Event.InitRDMA] := by
  have h := methodCalls_sendMetaEvents env cfg b r
  unfold methodCalls at h ⊢
  rw [firstRoundEvents, List.filter_append, List.filter_append, h]
  simp [Event.isMethod]

theorem methodCalls_roundEvents (env : Env) (cfg : Config) (b : Int) (r : Nat) :
    methodCalls (roundEvents env cfg b r) =
      [Event.InitMem, Event.CleanLockTable, Event.CleanQP, Event.LoadLockTable b,
        Event.SendMeta cfg.machine_id cfg.compute_node_num] := by
  have h := methodCalls_sendMetaEvents env cfg b r
  unfold methodCalls at h ⊢
  rw [roundEvents, List.filter_append, h]
  simp [Event.isMethod]

theorem resources_sendMetaEvents (env : Env) (cfg : Config) (b : Int) (r : Nat) :
    (sendMetaEvents env cfg b r).filter Event.isResource = [] := by
  simp [sendMetaEvents, List.filter_cons, List.filter_replicate, Event.isResource]

theorem resources_firstRoundEvents (env : Env) (cfg : Config) (b : Int) (r : Nat) :
    (firstRoundEvents env cfg b r).filter Event.isResource =
      [Event.malloc (mem_size_of cfg.mem_size_GB), Event.open_thread_local_device,
        Event.register_memory env.SERVER_LOCK_TABLE_ID env.malloc_result
          (mem_size_of cfg.mem_size_GB)] := by
  rw [firstRoundEvents, List.filter_append, List.filter_append, resources_sendMetaEvents]
  simp [Event.isResource]

theorem resources_roundEvents (env : Env) (cfg : Config) (b : Int) (r : Nat) :
    (roundEvents env cfg b r).filter Event.isResource = [] := by
  rw [roundEvents, List.filter_append, resources_sendMetaEvents]
  simp [Event.isResource]

/-- The method entries of a run whose trace is a first round, `Run`, and `j`
continue rounds each followed by `Run`. -/
theorem methodCalls_of_rounds (env : Env) (cfg : Config) (b : Int) (r j : Nat)
    (t : List Event)
    (ht : withoutConsole t = firstRoundEvents env cfg b r ++
      ([Event.Run] ++ repeatBlock j (roundEvents env cfg b r ++ [Event.Run]))) :
    methodCalls t =
      [Event.AllocMem, Event.InitMem, Event.LoadLockTable b,
        Event.SendMeta cfg.machine_id cfg.compute_node_num, Event.InitRDMA, Event.Run] ++
      repeatBlock j [Event.InitMem, Event.CleanLockTable, Event.CleanQP,
        Event.LoadLockTable b, Event.SendMeta cfg.machine_id cfg.compute_node_num,
        Event.Run] := by
  rw [← methodCalls_withoutConsole, ht]
  have h1 := methodCalls_firstRoundEvents env cfg b r
  have h2 := methodCalls_roundEvents env cfg b r
  unfold methodCalls at h1 h2 ⊢
  rw [List.filter_append, List.filter_append, filter_repeatBlock, List.filter_append, h1, h2]
  simp [Event.isMethod]

/-- The resource acquisitions of such a run: those of the first round only. -/
theorem resources_of_rounds (env : Env) (cfg : Config) (b : Int) (r j : Nat)
    (t : List Event)
    (ht : withoutConsole t = firstRoundEvents env cfg b r ++
      ([Event.Run] ++ repeatBlock j (roundEvents env cfg b r ++ [Event.Run]))) :
    t.filter Event.isResource =
      [Event.malloc (mem_size_of cfg.mem_size_GB), Event.open_thread_local_device,
        Event.register_memory env.SERVER_LOCK_TABLE_ID env.malloc_result
          (mem_size_of cfg.mem_size_GB)] := by
  rw [← resources_withoutConsole, ht]
  rw [List.filter_append, List.filter_append, filter_repeatBlock, List.filter_append,
    resources_firstRoundEvents, resources_roundEvents]
  have hrun : List.filter Event.isResource [Event.Run] = [] := by
    simp [Event.isResource]
  have hnil : ∀ n : Nat, repeatBlock n ([] : List Event) = [] := by
    intro n
    induction n with
    | zero => rfl
    | succ n ih => simp [repeatBlock, ih]
  rw [hrun, List.append_nil, hnil]
  simp

theorem bucket_num_of_GiB (g : Nat) (hfit : 196608 * g < 2 ^ 31) :
    bucket_num_of (mem_size_of g) = some ((196608 * g : Nat) : Int) := by
  have hg : g < 10923 := by norm_num at hfit; omega
  have hmem : mem_size_of g = g * 2 ^ 30 := by
    unfold mem_size_of
    rw [Nat.mod_eq_of_lt (by norm_num; omega)]
    norm_num
    ring
  have e1 : size_t_to_double (g * 2 ^ 30) = g * 2 ^ 30 :=
    roundToDouble_exact g 30 (by norm_num; omega)
  have e2 : mul_0_75 (g * 2 ^ 30) = 3 * g * 2 ^ 30 := by
    unfold mul_0_75
    rw [← Nat.mul_assoc]
    exact roundToDouble_exact (3 * g) 30 (by norm_num; omega)
  have hdiv : 3 * g * 2 ^ 30 / (4 * PAGE_SIZE) = 196608 * g := by
    unfold PAGE_SIZE
    norm_num
    omega
  unfold bucket_num_of
  rw [hmem, e1, e2]
  unfold div_PAGE_SIZE_to_int
  rw [hdiv, if_pos hfit]

theorem mem_size_of_GiB (g : Nat) (hfit : 196608 * g < 2 ^ 31) :
    mem_size_of g = g * 2 ^ 30 := by
  have hg : g < 10923 := by norm_num at hfit; omega
  unfold mem_size_of
  rw [Nat.mod_eq_of_lt (by norm_num; omega)]
  norm_num
  ring

theorem reserve_start_GiB (g : Nat) (hfit : 196608 * g < 2 ^ 31) :
    reserve_start (mem_size_of g) = some (3 * (g * 2 ^ 30) / 4) := by
  have hg : g < 10923 := by norm_num at hfit; omega
  rw [mem_size_of_GiB g hfit]
  apply reserve_start_exact
  · exact ⟨g * 2 ^ 18, by ring⟩
  · norm_num
    omega

theorem count_methodCalls (e : Event) (he : e.isMethod = true) (t : List Event) :
    (methodCalls t).count e = t.count e := by
  unfold methodCalls
  exact List.count_filter he

theorem mem_repeatBlock (e : Event) (n : Nat) (blk : List Event)
    (h : e ∈ repeatBlock n blk) : e ∈ blk := by
  induction n with
  | zero => simp [repeatBlock] at h
  | succ n ih =>
    simp only [repeatBlock, List.mem_append] at h
    rcases h with h | h
    · exact h
    · exact ih h

/-- C6: with the 4096-byte `PAGE_SIZE` and `g` GiB of memory, as long as
`196608 * g` fits a 32-bit signed `int`, `main` computes
`bucket_num = 196608 * g`.  When the start-up checks pass and the operator
types `c` `k` times and then `q`, `main` returns, having entered
`LoadLockTable` with exactly this value in the first round and in each of the
`k` continue rounds (`k + 1` entries, and the loaded structure holds that many
buckets); and every run of `main` that returns has passed this value to
`LoadLockTable` in the first round and in each of its continue rounds.  For
1 GiB the value is 196608. -/
theorem bucket_num_is_196608_per_GiB (g : Nat) (hfit : 196608 * g < 2 ^ 31) :
    bucket_num_of (mem_size_of g) = some ((196608 * g : Nat) : Int) ∧
    (∀ (env : Env) (cfg : Config) (stdin : Nat → Char) (k fuel : Nat),
      cfg.mem_size_GB = g →
      (0 ≤ cfg.machine_id ∧ cfg.machine_id < cfg.machine_num) →
      env.malloc_result ≠ 0 → env.register_memory_ok = true →
      (∀ i, i < k → stdin i = 'c') → stdin k = 'q' → k < fuel →
      ∃ w, main env cfg stdin fuel = .ok w ∧
        methodCalls w.trace =
          [Event.AllocMem, Event.InitMem, Event.LoadLockTable ((196608 * g : Nat) : Int),
            Event.SendMeta cfg.machine_id cfg.compute_node_num, Event.InitRDMA, Event.Run] ++
          repeatBlock k [Event.InitMem, Event.CleanLockTable, Event.CleanQP,
            Event.LoadLockTable ((196608 * g : Nat) : Int),
            Event.SendMeta cfg.machine_id cfg.compute_node_num, Event.Run] ∧
        w.trace.count (Event.LoadLockTable ((196608 * g : Nat) : Int)) = k + 1 ∧
        (∀ b : Int, Event.LoadLockTable b ∈ w.trace → b = ((196608 * g : Nat) : Int)) ∧
        w.server.locktable_store.map LockTableStore.GetBucketNum = some (196608 * g)) ∧
    (∀ (env : Env) (cfg : Config) (stdin : Nat → Char) (fuel : Nat) (w : World),
      cfg.mem_size_GB = g → main env cfg stdin fuel = .ok w →
      ∃ j, methodCalls w.trace =
        [Event.AllocMem, Event.InitMem, Event.LoadLockTable ((196608 * g : Nat) : Int),
          Event.SendMeta cfg.machine_id cfg.compute_node_num, Event.InitRDMA, Event.Run] ++
        repeatBlock j [Event.InitMem, Event.CleanLockTable, Event.CleanQP,
          Event.LoadLockTable ((196608 * g : Nat) : Int),
          Event.SendMeta cfg.machine_id cfg.compute_node_num, Event.Run]) ∧
    bucket_num_of (mem_size_of 1) = some 196608 := by
  refine ⟨bucket_num_of_GiB g hfit, ?_, ?_, bucket_num_of_GiB 1 (by norm_num)⟩
  · intro env cfg stdin k fuel hg hid hmalloc hreg hc hq hfuel
    have hb : bucket_num_of (mem_size_of cfg.mem_size_GB) = some ((196608 * g : Nat) : Int) := by
      rw [hg]; exact bucket_num_of_GiB g hfit
    have hr : reserve_start (mem_size_of cfg.mem_size_GB) = some (3 * (g * 2 ^ 30) / 4) := by
      rw [hg]; exact reserve_start_GiB g hfit
    obtain ⟨w, hw, hs, -, ht⟩ := main_commands env cfg stdin k fuel _ _ hid hmalloc hreg hr hb
      hc hq hfuel
    have hm := methodCalls_of_rounds env cfg _ _ k w.trace ht
    refine ⟨w, hw, hm, ?_, ?_, ?_⟩
    · rw [← count_methodCalls (Event.LoadLockTable ((196608 * g : Nat) : Int)) rfl, hm,
        List.count_append, count_repeatBlock]
      simp [List.count_cons]
      omega
    · intro b hmem
      have hmem2 : Event.LoadLockTable b ∈ methodCalls w.trace := by
        unfold methodCalls
        exact List.mem_filter.mpr ⟨hmem, rfl⟩
      rw [hm, List.mem_append] at hmem2
      rcases hmem2 with h | h
      · simpa using h
      · simpa using mem_repeatBlock _ _ _ h
    · rw [hs]
      have hmod : ((196608 * g : Nat) : Int) % (2 : Int) ^ (8 * 8) = ((196608 * g : Nat) : Int) := by
        apply Int.emod_eq_of_lt
        · exact Int.ofNat_nonneg _
        · norm_num at hfit ⊢
          omega
      simp only [serverInService, loadedStore, LockTableStore.new, Option.map_some', toUnsigned,
        hmod, Int.toNat_ofNat]
  · intro env cfg stdin fuel w hg hmain
    obtain ⟨b, r, j, -, -, -, -, hb, -, ht, -⟩ := main_ok env cfg stdin fuel w hmain
    rw [hg, bucket_num_of_GiB g hfit] at hb
    have hb2 : ((196608 * g : Nat) : Int) = b := Option.some.inj hb
    subst hb2
    exact ⟨j, methodCalls_of_rounds env cfg _ r j w.trace ht⟩

/-- Witness for C6: the sample deployment (1 GiB), the operator typing `c` and
then `q`: `main` returns and `LoadLockTable` was entered with 196608 buckets in
the first round and in the continue round. -/
theorem bucket_num_is_196608_per_GiB_witness :
    ∃ w, main sampleEnv sampleConfig sampleInput 2 = .ok w ∧
      methodCalls w.trace =
        [Event.AllocMem, Event.InitMem, Event.LoadLockTable 196608,
          Event.SendMeta 0 1, Event.InitRDMA, Event.Run,
          Event.InitMem, Event.CleanLockTable, Event.CleanQP, Event.LoadLockTable 196608,
          Event.SendMeta 0 1, Event.Run] ∧
      w.trace.count (Event.LoadLockTable 196608) = 2 := by
  obtain ⟨w, hw, hm, hcount, -⟩ := (bucket_num_is_196608_per_GiB 1 (by norm_num)).2.1
    sampleEnv sampleConfig sampleInput 1 2 rfl (by decide) (by decide) rfl (by decide)
    (by decide) (by decide)
  exact ⟨w, hw, hm, hcount⟩

/-- Counterexample to C7 as stated: in the sample deployment, with the operator
typing `q` at once, the run returns and its methods were entered in the order
AllocMem, InitMem, LoadLockTable, SendMeta, InitRDMA, Run; this is not the
order AllocMem, InitMem, InitRDMA, LoadLockTable, SendMeta, Run. -/
theorem first_round_order_counterexample :
    methodCallsOf (main sampleEnv sampleConfig (fun _ => 'q') 1) =
        some [Event.AllocMem, Event.InitMem, Event.LoadLockTable 196608, Event.SendMeta 0 1,
          Event.InitRDMA, Event.Run] ∧
    methodCallsOf (main sampleEnv sampleConfig (fun _ => 'q') 1) ≠
        some [Event.AllocMem, Event.InitMem, Event.InitRDMA, Event.LoadLockTable 196608,
          Event.SendMeta 0 1, Event.Run] := by
  decide

/-- C7, amended: whenever the start-up checks of `main` pass, the first round
enters the methods in the order AllocMem, InitMem, LoadLockTable, SendMeta,
InitRDMA and then Run: the structure is loaded and the descriptor is sent to
every compute node before the RDMA device is opened and the buffer registered,
and serving starts after that.  This holds for the first round by itself, for
the state in which the first `Run` returns, and for every run of `main` that
returns. -/
theorem first_round_order (env : Env) (cfg : Config) (b : Int) (r : Nat)
    (hid : 0 ≤ cfg.machine_id ∧ cfg.machine_id < cfg.machine_num)
    (hmalloc : env.malloc_result ≠ 0) (hreg : env.register_memory_ok = true)
    (hr : reserve_start (mem_size_of cfg.mem_size_GB) = some r)
    (hb : bucket_num_of (mem_size_of cfg.mem_size_GB) = some b) :
    (∃ w1, firstRound env cfg = .ok (b, w1) ∧
      w1.trace =
        [Event.AllocMem, Event.malloc (mem_size_of cfg.mem_size_GB),
          Event.InitMem, Event.memset env.malloc_result 0 (mem_size_of cfg.mem_size_GB),
          Event.LoadLockTable b, Event.new_LockTableStore b,
          Event.SendMeta cfg.machine_id cfg.compute_node_num] ++
        (List.replicate cfg.compute_node_num
          (Event.SendLockTableMeta
            (PrepareLockTableMeta env.MEM_STORE_META_END env.junk
              (loadedStore env b r) cfg.machine_id).1
            (PrepareLockTableMeta env.MEM_STORE_META_END env.junk
              (loadedStore env b r) cfg.machine_id).2) ++
          [Event.InitRDMA, Event.open_thread_local_device,
            Event.register_memory env.SERVER_LOCK_TABLE_ID env.malloc_result
              (mem_size_of cfg.mem_size_GB)]) ∧
      methodCalls w1.trace =
        [Event.AllocMem, Event.InitMem, Event.LoadLockTable b,
          Event.SendMeta cfg.machine_id cfg.compute_node_num, Event.InitRDMA] ∧
      ∀ (stdin : Nat → Char) (fuel : Nat) (flag : Bool) (w2 : World),
        Run stdin fuel w1 = .ok (flag, w2) →
        methodCalls w2.trace =
          [Event.AllocMem, Event.InitMem, Event.LoadLockTable b,
            Event.SendMeta cfg.machine_id cfg.compute_node_num, Event.InitRDMA, Event.Run]) ∧
    (∀ (stdin : Nat → Char) (fuel : Nat) (w : World), main env cfg stdin fuel = .ok w →
      (methodCalls w.trace).take 6 =
        [Event.AllocMem, Event.InitMem, Event.LoadLockTable b,
          Event.SendMeta cfg.machine_id cfg.compute_node_num, Event.InitRDMA, Event.Run]) := by
  have hcalls := methodCalls_firstRoundEvents env cfg b r
  constructor
  · refine ⟨_, firstRound_eq env cfg b r hid hmalloc hreg hr hb, ?_, hcalls, ?_⟩
    · simp only [firstRoundEvents, sendMetaEvents, List.append_assoc, List.cons_append,
        List.nil_append]
    · intro stdin fuel flag w2 hrun
      obtain ⟨-, ht, -⟩ := Run_console stdin fuel _ w2 flag hrun
      rw [← methodCalls_withoutConsole, ht, withoutConsole_firstRoundEvents]
      unfold methodCalls at hcalls ⊢
      rw [List.filter_append, hcalls]
      simp [Event.isMethod]
  · intro stdin fuel w h
    obtain ⟨b2, r2, j, -, -, -, hr2, hb2, -, ht, -⟩ := main_ok env cfg stdin fuel w h
    rw [hb] at hb2
    have hbb : b = b2 := Option.some.inj hb2
    subst hbb
    rw [methodCalls_of_rounds env cfg b r2 j w.trace ht]
    exact List.take_left' rfl

/-- Witness for C7, amended: the sample deployment, one continue round. -/
theorem first_round_order_witness :
    ∃ w, main sampleEnv sampleConfig sampleInput 2 = .ok w ∧
      (methodCalls w.trace).take 6 =
        [Event.AllocMem, Event.InitMem, Event.LoadLockTable 196608,
          Event.SendMeta 0 1, Event.InitRDMA, Event.Run] := by
  obtain ⟨w, hw, -⟩ := main_commands sampleEnv sampleConfig sampleInput 1 2 196608 805306368
    (by decide) (by decide) rfl (by decide) (by decide) (by decide) (by decide) (by decide)
  exact ⟨w, hw, (first_round_order sampleEnv sampleConfig 196608 805306368
    (by decide) (by decide) rfl (by decide) (by decide)).2 sampleInput 2 w hw⟩

/-- C8: when the start-up checks pass and the operator types `c` `k` times and
then `q`, `main` returns, and over the whole run `AllocMem` and `InitRDMA`
were each entered exactly once, the only `malloc`, device open and
`register_memory` (under `SERVER_LOCK_TABLE_ID`) are those of the first round
(no continue round repeats any of them), and `InitMem`, `LoadLockTable` and
`SendMeta` were each entered exactly `k + 1` times. -/
theorem main_acquires_resources_once (env : Env) (cfg : Config) (stdin : Nat → Char)
    (k fuel : Nat) (b : Int) (r : Nat)
    (hid : 0 ≤ cfg.machine_id ∧ cfg.machine_id < cfg.machine_num)
    (hmalloc : env.malloc_result ≠ 0) (hreg : env.register_memory_ok = true)
    (hr : reserve_start (mem_size_of cfg.mem_size_GB) = some r)
    (hb : bucket_num_of (mem_size_of cfg.mem_size_GB) = some b)
    (hc : ∀ i, i < k → stdin i = 'c') (hq : stdin k = 'q') (hfuel : k < fuel) :
    ∃ w, main env cfg stdin fuel = .ok w ∧
      methodCalls w.trace =
        [Event.AllocMem, Event.InitMem, Event.LoadLockTable b,
          Event.SendMeta cfg.machine_id cfg.compute_node_num, Event.InitRDMA, Event.Run] ++
        repeatBlock k [Event.InitMem, Event.CleanLockTable, Event.CleanQP,
          Event.LoadLockTable b, Event.SendMeta cfg.machine_id cfg.compute_node_num,
          Event.Run] ∧
      (methodCalls w.trace).count Event.InitRDMA = 1 ∧
      (methodCalls w.trace).count Event.AllocMem = 1 ∧
      (methodCalls w.trace).count Event.InitMem = k + 1 ∧
      (methodCalls w.trace).count (Event.LoadLockTable b) = k + 1 ∧
      (methodCalls w.trace).count (Event.SendMeta cfg.machine_id cfg.compute_node_num) = k + 1 ∧
      w.trace.filter Event.isResource =
        [Event.malloc (mem_size_of cfg.mem_size_GB), Event.open_thread_local_device,
          Event.register_memory env.SERVER_LOCK_TABLE_ID env.malloc_result
            (mem_size_of cfg.mem_size_GB)] ∧
      w.server.rdma_ctrl = some ⟨cfg.machine_id, cfg.local_port, true,
        [(env.SERVER_LOCK_TABLE_ID, env.malloc_result, mem_size_of cfg.mem_size_GB)]⟩ := by
  obtain ⟨w, hmain, hs, -, ht⟩ :=
    main_commands env cfg stdin k fuel b r hid hmalloc hreg hr hb hc hq hfuel
  have hcalls := methodCalls_of_rounds env cfg b r k w.trace ht
  refine ⟨w, hmain, hcalls, ?_, ?_, ?_, ?_, ?_, resources_of_rounds env cfg b r k w.trace ht, ?_⟩
  · rw [hcalls, List.count_append, count_repeatBlock]
    simp [List.count_cons]
  · rw [hcalls, List.count_append, count_repeatBlock]
    simp [List.count_cons]
  · rw [hcalls, List.count_append, count_repeatBlock]
    simp [List.count_cons]
    omega
  · rw [hcalls, List.count_append, count_repeatBlock]
    simp [List.count_cons]
    omega
  · rw [hcalls, List.count_append, count_repeatBlock]
    simp [List.count_cons]
    omega
  · rw [hs]
    rfl

/-- Witness for C8: the sample deployment, the operator typing `c` then `q`. -/
theorem main_acquires_resources_once_witness :
    ∃ w, main sampleEnv sampleConfig sampleInput 2 = .ok w ∧
      (methodCalls w.trace).count Event.InitRDMA = 1 ∧
      (methodCalls w.trace).count Event.AllocMem = 1 ∧
      (methodCalls w.trace).count Event.InitMem = 1 + 1 ∧
      w.trace.filter Event.isResource =
        [Event.malloc 1073741824, Event.open_thread_local_device,
          Event.register_memory 5 0x7f0000000000 1073741824] := by
  obtain ⟨w, hw, -, h1, h2, h3, -, -, h6, -⟩ :=
    main_acquires_resources_once sampleEnv sampleConfig sampleInput 1 2 196608 805306368
      (by decide) (by decide) rfl (by decide) (by decide) (by decide) (by decide) (by decide)
  exact ⟨w, hw, h1, h2, h3, h6⟩

/-- Counterexample to C9 as stated: in the sample deployment with one continue
round, the round (the method entries after the first six) runs InitMem,
CleanLockTable, CleanQP, LoadLockTable, SendMeta, Run: `CleanQP` comes before
`LoadLockTable` and `SendMeta`, not after them, so the order is not InitMem,
LoadLockTable, SendMeta, CleanQP, Run. -/
theorem continue_round_order_counterexample :
    (methodCallsOf (main sampleEnv sampleConfig sampleInput 2)).map (List.drop 6) =
        some [Event.InitMem, Event.CleanLockTable, Event.CleanQP, Event.LoadLockTable 196608,
          Event.SendMeta 0 1, Event.Run] ∧
    ((methodCallsOf (main sampleEnv sampleConfig sampleInput 2)).map (List.drop 6)).map
        (List.filter (fun e => decide (e ≠ Event.CleanLockTable))) ≠
      some [Event.InitMem, Event.LoadLockTable 196608, Event.SendMeta 0 1, Event.CleanQP,
        Event.Run] := by
  decide

/-- C9, amended: every continue round performs, in this order: InitMem (a
`memset` to 0 of the whole buffer), CleanLockTable (which does nothing), CleanQP
(`destroy_rc_qp`), LoadLockTable(bucket_num), SendMeta (one
`SendLockTableMeta` of the descriptor message per compute node), and then
re-enters Run.  The queue pairs are torn down before the structure is reloaded
and the descriptor bootstrapped, and the round leaves the server object, its
memory registration included, as it was.  In every run of `main` that returns
there is one such round per `c` the operator answered, and the buffer was
registered once. -/
theorem continue_round_order (env : Env) (cfg : Config) (b : Int) (r : Nat)
    (hr : reserve_start (mem_size_of cfg.mem_size_GB) = some r)
    (hb : bucket_num_of (mem_size_of cfg.mem_size_GB) = some b) :
    (∀ w : World, w.server = serverInService env cfg b r →
      ∃ w2, roundBody env b cfg.machine_id cfg.compute_node_num w = .ok w2 ∧
        w2.trace = w.trace ++
          ([Event.InitMem, Event.memset env.malloc_result 0 (mem_size_of cfg.mem_size_GB),
            Event.CleanLockTable, Event.CleanQP, Event.destroy_rc_qp,
            Event.LoadLockTable b, Event.new_LockTableStore b,
            Event.SendMeta cfg.machine_id cfg.compute_node_num] ++
          List.replicate cfg.compute_node_num
            (Event.SendLockTableMeta
              (PrepareLockTableMeta env.MEM_STORE_META_END env.junk
                (loadedStore env b r) cfg.machine_id).1
              (PrepareLockTableMeta env.MEM_STORE_META_END env.junk
                (loadedStore env b r) cfg.machine_id).2)) ∧
        w2.server = w.server ∧
        w2.server.rdma_ctrl = some ⟨cfg.machine_id, cfg.local_port, true,
          [(env.SERVER_LOCK_TABLE_ID, env.malloc_result, mem_size_of cfg.mem_size_GB)]⟩) ∧
    (∀ (stdin : Nat → Char) (fuel : Nat) (w : World), main env cfg stdin fuel = .ok w →
      withoutConsole w.trace = firstRoundEvents env cfg b r ++ ([Event.Run] ++
        repeatBlock (w.trace.count (Event.scanf 'c'))
          ([Event.InitMem, Event.memset env.malloc_result 0 (mem_size_of cfg.mem_size_GB),
            Event.CleanLockTable, Event.CleanQP, Event.destroy_rc_qp,
            Event.LoadLockTable b, Event.new_LockTableStore b,
            Event.SendMeta cfg.machine_id cfg.compute_node_num] ++
          (List.replicate cfg.compute_node_num
            (Event.SendLockTableMeta
              (PrepareLockTableMeta env.MEM_STORE_META_END env.junk
                (loadedStore env b r) cfg.machine_id).1
              (PrepareLockTableMeta env.MEM_STORE_META_END env.junk
                (loadedStore env b r) cfg.machine_id).2) ++
            [Event.Run]))) ∧
      methodCalls w.trace =
        [Event.AllocMem, Event.InitMem, Event.LoadLockTable b,
          Event.SendMeta cfg.machine_id cfg.compute_node_num, Event.InitRDMA, Event.Run] ++
        repeatBlock (w.trace.count (Event.scanf 'c'))
          [Event.InitMem, Event.CleanLockTable, Event.CleanQP,
            Event.LoadLockTable b, Event.SendMeta cfg.machine_id cfg.compute_node_num,
            Event.Run] ∧
      (w.trace.filter Event.isResource).count
        (Event.register_memory env.SERVER_LOCK_TABLE_ID env.malloc_result
          (mem_size_of cfg.mem_size_GB)) = 1 ∧
      w.server.rdma_ctrl = some ⟨cfg.machine_id, cfg.local_port, true,
        [(env.SERVER_LOCK_TABLE_ID, env.malloc_result, mem_size_of cfg.mem_size_GB)]⟩) := by
  constructor
  · intro w hw
    refine ⟨_, roundBody_eq env cfg b r w hw, ?_, rfl, ?_⟩
    · simp only [roundEvents, sendMetaEvents, List.append_assoc, List.cons_append,
        List.nil_append]
    · simp only [hw]
      rfl
  · intro stdin fuel w h
    obtain ⟨b2, r2, j, -, -, -, hr2, hb2, hs, ht, hcnt⟩ := main_ok env cfg stdin fuel w h
    rw [hb] at hb2
    rw [hr] at hr2
    have hbb : b = b2 := Option.some.inj hb2
    have hrr : r = r2 := Option.some.inj hr2
    subst hbb hrr
    rw [hcnt]
    refine ⟨?_, methodCalls_of_rounds env cfg b r j w.trace ht, ?_, ?_⟩
    · rw [ht]
      simp only [roundEvents, sendMetaEvents, List.append_assoc, List.cons_append,
        List.nil_append]
    · rw [resources_of_rounds env cfg b r j w.trace ht]
      simp [List.count_cons]
    · rw [hs]
      rfl

/-- Witness for C9, amended: the sample deployment with one continue round. -/
theorem continue_round_order_witness :
    ∃ w, main sampleEnv sampleConfig sampleInput 2 = .ok w ∧
      methodCalls w.trace =
        [Event.AllocMem, Event.InitMem, Event.LoadLockTable 196608,
          Event.SendMeta 0 1, Event.InitRDMA, Event.Run] ++
        repeatBlock (w.trace.count (Event.scanf 'c'))
          [Event.InitMem, Event.CleanLockTable, Event.CleanQP,
            Event.LoadLockTable 196608, Event.SendMeta 0 1, Event.Run] := by
  obtain ⟨w, hw, -⟩ := main_commands sampleEnv sampleConfig sampleInput 1 2 196608 805306368
    (by decide) (by decide) rfl (by decide) (by decide) (by decide) (by decide) (by decide)
  exact ⟨w, hw, ((continue_round_order sampleEnv sampleConfig 196608 805306368
    (by decide) (by decide)).2 sampleInput 2 w hw).2.1⟩

/-- C10: if the character at offset `i` of the remaining input is the first
`c` or `q`, then `Run` (given more than `i` loop iterations) returns, having
read exactly `i + 1` characters; it returns `true` iff that character is `c`
and `false` iff it is `q`; each of the `i` earlier characters caused exactly
one re-prompt (`scanf`, `printf`, `usleep`) and the server object is
unchanged.  If the input holds neither `c` nor `q`, `Run` has not returned
after any number of iterations. -/
theorem Run_returns_on_first_command (stdin : Nat → Char) (i : Nat) (fuel : Nat) (w : World)
    (hnoise : ∀ j, j < i → stdin (w.stdin_pos + j) ≠ 'c' ∧ stdin (w.stdin_pos + j) ≠ 'q')
    (hcmd : stdin (w.stdin_pos + i) = 'c' ∨ stdin (w.stdin_pos + i) = 'q')
    (hfuel : i < fuel) :
    (∃ (flag : Bool) (w2 : World), Run stdin fuel w = .ok (flag, w2) ∧
      (flag = true ↔ stdin (w.stdin_pos + i) = 'c') ∧
      (flag = false ↔ stdin (w.stdin_pos + i) = 'q') ∧
      w2.stdin_pos = w.stdin_pos + i + 1 ∧
      w2.server = w.server ∧
      w2.trace = w.trace ++ ([Event.Run, Event.printf, Event.printf] ++
        (rePrompts stdin w.stdin_pos i ++ [Event.scanf (stdin (w.stdin_pos + i))])) ∧
      (rePrompts stdin w.stdin_pos i).count Event.printf = i ∧
      (rePrompts stdin w.stdin_pos i).length = 3 * i) ∧
    (∀ (stdin2 : Nat → Char),
      (∀ j, stdin2 (w.stdin_pos + j) ≠ 'c' ∧ stdin2 (w.stdin_pos + j) ≠ 'q') →
      ∀ fuel2, Run stdin2 fuel2 w = .error .out_of_fuel) := by
  constructor
  · refine ⟨decide (stdin (w.stdin_pos + i) = 'c'),
      ⟨w.server, w.trace ++ ([Event.Run, Event.printf, Event.printf] ++
        (rePrompts stdin w.stdin_pos i ++ [Event.scanf (stdin (w.stdin_pos + i))])),
        w.stdin_pos + i + 1⟩, ?_, ?_, ?_, rfl, rfl, rfl, rePrompts_count_printf _ _ _,
      rePrompts_length _ _ _⟩
    · unfold Run
      rw [RunLoop_first stdin i fuel _ (by simpa only [World.emit] using hnoise)
        (by simpa only [World.emit] using hcmd) hfuel]
      simp only [World.emit, List.append_assoc, List.cons_append, List.nil_append]
    · simp
    · rcases hcmd with hc | hq
      · simp [hc]
      · simp [hq]
  · intro stdin2 hno fuel2
    unfold Run
    exact RunLoop_never stdin2 fuel2 _ (by simpa only [World.emit] using hno)

/-- Witness for C10: the operator types `x`, newline, `c`. -/
theorem Run_returns_on_first_command_witness :
    ∃ (flag : Bool) (w2 : World),
      Run (fun n => if n = 0 then 'x' else if n = 1 then (Char.ofNat 10) else 'c') 3
        ⟨LockTableServer.new 0 1 2 4096, [], 0⟩ = .ok (flag, w2) ∧
      (flag = true ↔ (fun n => if n = 0 then 'x' else if n = 1 then (Char.ofNat 10) else 'c') (0 + 2) = 'c') ∧
      (flag = false ↔ (fun n => if n = 0 then 'x' else if n = 1 then (Char.ofNat 10) else 'c') (0 + 2) = 'q') ∧
      w2.stdin_pos = 0 + 2 + 1 ∧
      w2.server = LockTableServer.new 0 1 2 4096 ∧
      w2.trace = [] ++ ([Event.Run, Event.printf, Event.printf] ++
        (rePrompts (fun n => if n = 0 then 'x' else if n = 1 then (Char.ofNat 10) else 'c') 0 2 ++
          [Event.scanf ((fun n => if n = 0 then 'x' else if n = 1 then (Char.ofNat 10) else 'c') (0 + 2))])) ∧
      (rePrompts (fun n => if n = 0 then 'x' else if n = 1 then (Char.ofNat 10) else 'c') 0 2).count
        Event.printf = 2 ∧
      (rePrompts (fun n => if n = 0 then 'x' else if n = 1 then (Char.ofNat 10) else 'c') 0 2).length =
        3 * 2 :=
  (Run_returns_on_first_command (fun n => if n = 0 then 'x' else if n = 1 then (Char.ofNat 10) else 'c') 2 3
    ⟨LockTableServer.new 0 1 2 4096, [], 0⟩ (by decide) (by decide) (by decide)).1

/-! ## Lookups with a node id outside the table -/

/-- The failures the function does check: when `bind`, `listen`, `accept` or
`send` fails, the failure is logged as an error, the sockets are closed and
the function returns without any further socket call. -/
theorem SendLockTableMeta_checked_failures (env : SocketEnv) (local_meta_port : Int)
    (hash_meta_buffer : List Nat) (total_meta_size : Nat) (hsock : 0 ≤ env.socket_result) :
    (env.bind_result < 0 →
      SendLockTableMeta env local_meta_port hash_meta_buffer total_meta_size =
        .ok [SockEvent.socket, SockEvent.setsockopt env.socket_result,
          SockEvent.log_info LogLine.creates_socket_success,
          SockEvent.bind env.socket_result local_meta_port,
          SockEvent.log_error LogLine.binds_socket_error,
          SockEvent.close env.socket_result]) ∧
    (0 ≤ env.bind_result → env.listen_result < 0 →
      SendLockTableMeta env local_meta_port hash_meta_buffer total_meta_size =
        .ok [SockEvent.socket, SockEvent.setsockopt env.socket_result,
          SockEvent.log_info LogLine.creates_socket_success,
          SockEvent.bind env.socket_result local_meta_port,
          SockEvent.log_info LogLine.binds_socket_success,
          SockEvent.listen env.socket_result 10,
          SockEvent.log_error LogLine.listens_error,
          SockEvent.close env.socket_result]) ∧
    (0 ≤ env.bind_result → 0 ≤ env.listen_result → env.accept_result < 0 →
      SendLockTableMeta env local_meta_port hash_meta_buffer total_meta_size =
        .ok [SockEvent.socket, SockEvent.setsockopt env.socket_result,
          SockEvent.log_info LogLine.creates_socket_success,
          SockEvent.bind env.socket_result local_meta_port,
          SockEvent.log_info LogLine.binds_socket_success,
          SockEvent.listen env.socket_result 10,
          SockEvent.log_info LogLine.listens_success,
          SockEvent.accept env.socket_result,
          SockEvent.log_error LogLine.accepts_error,
          SockEvent.close env.accept_result,
          SockEvent.close env.socket_result]) ∧
    (0 ≤ env.bind_result → 0 ≤ env.listen_result → 0 ≤ env.accept_result →
      env.send_result < 0 →
      SendLockTableMeta env local_meta_port hash_meta_buffer total_meta_size =
        .ok [SockEvent.socket, SockEvent.setsockopt env.socket_result,
          SockEvent.log_info LogLine.creates_socket_success,
          SockEvent.bind env.socket_result local_meta_port,
          SockEvent.log_info LogLine.binds_socket_success,
          SockEvent.listen env.socket_result 10,
          SockEvent.log_info LogLine.listens_success,
          SockEvent.accept env.socket_result,
          SockEvent.log_info LogLine.accepts_success,
          SockEvent.send env.accept_result hash_meta_buffer total_meta_size,
          SockEvent.log_error LogLine.sends_hash_meta_error,
          SockEvent.close env.accept_result,
          SockEvent.close env.socket_result]) := by
  have h0 := Int.not_lt.mpr hsock
  refine ⟨?_, ?_, ?_, ?_⟩
  · intro hb
    unfold SendLockTableMeta
    simp only [if_neg h0, if_pos hb, List.cons_append, List.nil_append]
  · intro hb hl
    unfold SendLockTableMeta
    simp only [if_neg h0, if_neg (Int.not_lt.mpr hb), if_pos hl, List.cons_append,
      List.nil_append]
  · intro hb hl ha
    unfold SendLockTableMeta
    simp only [if_neg h0, if_neg (Int.not_lt.mpr hb), if_neg (Int.not_lt.mpr hl), if_pos ha,
      List.cons_append, List.nil_append]
  · intro hb hl ha hs
    unfold SendLockTableMeta
    simp only [if_neg h0, if_neg (Int.not_lt.mpr hb), if_neg (Int.not_lt.mpr hl),
      if_neg (Int.not_lt.mpr ha), if_pos hs, List.cons_append, List.nil_append]

/-- C12, the code at the failing input: `socket`, `bind`, `listen`, `accept`
and `send` succeed and `recv` fails, storing nothing.  The return value of
`recv` is never looked at: the function compares whatever the fresh receive
buffer holds with the literal.  When the buffer holds the literal, the
handshake ends without any error being logged; when it holds zeros, the one
error logged is the acknowledgment mismatch quoting an empty string.  In both
cases the two sockets are closed and the function returns. -/
theorem SendLockTableMeta_recv_failure_unchecked :
    callsOf (SendLockTableMeta
        ⟨3, 0, 0, 4, 44, none, fun i => (ACK_LITERAL ++ [0]).getD i 0⟩ 12346 [1, 2] 2) =
      some [SockEvent.socket, SockEvent.setsockopt 3,
        SockEvent.log_info LogLine.creates_socket_success, SockEvent.bind 3 12346,
        SockEvent.log_info LogLine.binds_socket_success, SockEvent.listen 3 10,
        SockEvent.log_info LogLine.listens_success, SockEvent.accept 3,
        SockEvent.log_info LogLine.accepts_success, SockEvent.send 4 [1, 2] 2,
        SockEvent.log_info LogLine.sends_hash_meta_success,
        SockEvent.malloc 100, SockEvent.recv 4 100,
        SockEvent.free, SockEvent.close 4, SockEvent.close 3] ∧
    (callsOf (SendLockTableMeta
        ⟨3, 0, 0, 4, 44, none, fun i => (ACK_LITERAL ++ [0]).getD i 0⟩ 12346 [1, 2] 2)).map
      (List.filter SockEvent.isLogError) = some [] ∧
    (callsOf (SendLockTableMeta ⟨3, 0, 0, 4, 44, none, fun _ => 0⟩ 12346 [1, 2] 2)).map
      (List.filter SockEvent.isLogError) =
      some [SockEvent.log_error (LogLine.client_receives_hash_meta_error [])] := by
  decide

/-! ## Properties of `SelectUniqueItem` -/

theorem toSigned_small (n : Nat) (h : n < 2 ^ 31) : toSigned 4 (n % 2 ^ 32) = (n : Int) := by
  have h2 : n % 2 ^ 32 = n := Nat.mod_eq_of_lt (by norm_num at h ⊢; omega)
  rw [h2]
  unfold toSigned
  rw [if_pos (by norm_num at h ⊢; omega)]

theorem selectLoop_single_value_spins (FastRand : Nat → Nat × Nat) (fuel seed : Nat) :
    selectLoop FastRand [1] 2 fuel ⟨1, (List.replicate 32 0).set 1 1, [1], seed⟩ =
      .error .out_of_fuel := by
  induction fuel generalizing seed with
  | zero => simp [selectLoop]
  | succ fuel ih =>
    have hidx : toSigned 4 (((FastRand seed).1 % 1) % 2 ^ 32) = 0 := by
      rw [Nat.mod_one]
      exact toSigned_small 0 (by norm_num)
    have hstep : selectStep FastRand [1] ⟨1, (List.replicate 32 0).set 1 1, [1], seed⟩ =
        .ok ⟨1, (List.replicate 32 0).set 1 1, [1], (FastRand seed).2⟩ := by
      unfold selectStep
      simp only [List.length_singleton, hidx]
      simp [List.getD_eq_getElem?_getD, List.getElem?_set, List.getElem?_replicate]
    rw [selectLoop, if_pos (by norm_num), hstep]
    exact ih _

/-- Counterexample to C14 as stated: `values = [1]` and `N = M = 2` satisfy
both assertions (`M >= N`, `M >= values.size()`), but whatever `FastRand`
returns and whatever the seed, the call has not returned after any number of
passes: once 1 is selected every draw finds it used.  (No result could meet the
claim either: two distinct items cannot come from a single value.) -/
theorem SelectUniqueItem_counterexample :
    (∀ (FastRand : Nat → Nat × Nat) (seed fuel : Nat),
      SelectUniqueItem FastRand fuel seed [1] 2 2 = .error .out_of_fuel) ∧
    ¬ ∃ ret : List Nat, 2 ≤ ret.length ∧ ret.Nodup ∧ ∀ x ∈ ret, x ∈ [1] := by
  constructor
  · intro FastRand seed fuel
    have hts : to_select_of (FastRand seed).1 2 2 = some 2 := by
      unfold to_select_of
      have h1 : (2 - 2 + 1) % 2 ^ 32 = 1 := by norm_num
      rw [h1, Nat.mod_one]
      simp only [Nat.zero_add]
      rw [if_neg (by decide), toSigned_small 2 (by norm_num)]
      rfl
    unfold SelectUniqueItem
    simp only [List.length_singleton, hts]
    have hloop : selectLoop FastRand [1] 2 fuel ⟨0, List.replicate 32 0, [], (FastRand seed).2⟩ =
        .error .out_of_fuel := by
      cases fuel with
      | zero => simp [selectLoop]
      | succ fuel =>
        have hidx : toSigned 4 (((FastRand (FastRand seed).2).1 % 1) % 2 ^ 32) = 0 := by
          rw [Nat.mod_one]
          exact toSigned_small 0 (by norm_num)
        have hstep : selectStep FastRand [1] ⟨0, List.replicate 32 0, [], (FastRand seed).2⟩ =
            .ok ⟨1, (List.replicate 32 0).set 1 1, [1],
              (FastRand (FastRand seed).2).2⟩ := by
          unfold selectStep
          simp only [List.length_singleton, hidx]
          simp [List.getD_eq_getElem?_getD, List.getElem?_set, List.getElem?_replicate]
        rw [selectLoop, if_pos (by norm_num), hstep]
        exact selectLoop_single_value_spins FastRand fuel _
    rw [hloop]
    simp
  · rintro ⟨ret, hlen, hnd, hmem⟩
    have hsub : ret ⊆ [1] := fun x hx => hmem x hx
    have := (List.subperm_of_subset hnd hsub).length_le
    simp at this
    omega

theorem length_le_32_of_nodup (values : List Nat) (hvals : ∀ v ∈ values, v < 32)
    (hnodup : values.Nodup) : values.length ≤ 32 := by
  have hsub : values ⊆ List.range 32 := fun v hv => List.mem_range.2 (hvals v hv)
  have := (List.subperm_of_subset hnodup hsub).length_le
  simpa using this

theorem drawnValue_mem (FastRand : Nat → Nat × Nat) (values : List Nat) (seed : Nat)
    (hne : values.length ≠ 0) : drawnValue FastRand values seed ∈ values := by
  unfold drawnValue
  have hlt : (FastRand seed).1 % values.length < values.length :=
    Nat.mod_lt _ (Nat.pos_of_ne_zero hne)
  rw [List.getD_eq_getElem _ _ hlt]
  exact List.getElem_mem _

theorem selectStep_inv (FastRand : Nat → Nat × Nat) (values : List Nat) (st : SelectState)
    (hvals : ∀ v ∈ values, v < 32) (hne : values.length ≠ 0) (hlen : values.length ≤ 32)
    (hinv : st.Inv values) :
    ∃ st2, selectStep FastRand values st = .ok st2 ∧ st2.Inv values ∧
      st2.ret = pushNew st.ret (drawnValue FastRand values st.tmp_seed) ∧
      st2.tmp_seed = (FastRand st.tmp_seed).2 := by
  obtain ⟨hul, hused, hnd, hmem, hi⟩ := hinv
  have hlt : (FastRand st.tmp_seed).1 % values.length < values.length :=
    Nat.mod_lt _ (Nat.pos_of_ne_zero hne)
  have hidx : toSigned 4 (((FastRand st.tmp_seed).1 % values.length) % 2 ^ 32) =
      (((FastRand st.tmp_seed).1 % values.length : Nat) : Int) :=
    toSigned_small _ (by norm_num; omega)
  have hvin := drawnValue_mem FastRand values st.tmp_seed hne
  have hv32 := hvals _ hvin
  have hnonneg : ¬ ((((FastRand st.tmp_seed).1 % values.length : Nat) : Int) < 0) := by omega
  unfold selectStep
  simp only [if_neg hne, hidx, if_neg hnonneg, Int.toNat_ofNat]
  have hdv : values.getD ((FastRand st.tmp_seed).1 % values.length) 0 =
      drawnValue FastRand values st.tmp_seed := rfl
  simp only [hdv]
  generalize drawnValue FastRand values st.tmp_seed = v at hvin hv32 ⊢
  rw [if_neg (by simpa using hv32)]
  by_cases hu : st.used.getD v 0 = 1
  · have hvret : v ∈ st.ret := (hused v hv32).1 hu
    refine ⟨{ st with tmp_seed := (FastRand st.tmp_seed).2 }, by rw [if_pos hu],
      ⟨hul, hused, hnd, hmem, hi⟩, ?_, rfl⟩
    simp [pushNew, hvret]
  · have hvret : v ∉ st.ret := fun h => hu ((hused v hv32).2 h)
    refine ⟨⟨st.i + 1, st.used.set v 1, st.ret ++ [v], (FastRand st.tmp_seed).2⟩,
      by rw [if_neg hu], ⟨?_, ?_, ?_, ?_, ?_⟩, ?_, rfl⟩
    · simp [hul]
    · intro w hw
      simp only [List.getD_eq_getElem?_getD, List.getElem?_set, hul, List.mem_append,
        List.mem_singleton]
      by_cases hwv : v = w
      · subst hwv
        simp [hv32]
      · have hwv2 : ¬ w = v := fun h => hwv h.symm
        simp only [hwv, if_false, hwv2, or_false]
        have := hused w hw
        rwa [List.getD_eq_getElem?_getD] at this
    · exact List.Nodup.append hnd (List.nodup_singleton v) (by simpa using hvret)
    · intro x hx
      rcases List.mem_append.1 hx with h | h
      · exact hmem x h
      · rw [List.mem_singleton.1 h]; exact hvin
    · simp [hi]
    · simp [pushNew, hvret]

theorem selectLoop_step (FastRand : Nat → Nat × Nat) (values : List Nat) (to_select : Int)
    (fuel : Nat) (st st2 : SelectState) (hi : st.i < to_select)
    (hstep : selectStep FastRand values st = .ok st2) :
    selectLoop FastRand values to_select (fuel + 1) st =
      selectLoop FastRand values to_select fuel st2 := by
  rw [selectLoop, if_pos hi, hstep]

theorem selectLoop_done (FastRand : Nat → Nat × Nat) (values : List Nat) (to_select : Int)
    (fuel : Nat) (st : SelectState) (hi : ¬ st.i < to_select) :
    selectLoop FastRand values to_select fuel st = .ok st := by
  cases fuel <;> simp [selectLoop, hi]

theorem seedAfter_add (FastRand : Nat → Nat × Nat) (m n seed : Nat) :
    seedAfter FastRand (m + n) seed = seedAfter FastRand n (seedAfter FastRand m seed) := by
  induction m generalizing seed with
  | zero => simp [seedAfter]
  | succ m ih =>
    rw [Nat.succ_add]
    simp only [seedAfter]
    exact ih _

theorem drawn_add (FastRand : Nat → Nat × Nat) (values : List Nat) (m n seed : Nat) :
    drawn FastRand values (m + n) seed =
      drawn FastRand values m seed ++ drawn FastRand values n (seedAfter FastRand m seed) := by
  induction m generalizing seed with
  | zero => simp [drawn, seedAfter]
  | succ m ih =>
    rw [Nat.succ_add]
    simp only [drawn, seedAfter, List.cons_append]
    rw [ih]

theorem selectLoop_progress (FastRand : Nat → Nat × Nat) (values : List Nat) (to_select : Int)
    (hvals : ∀ v ∈ values, v < 32) (hne : values.length ≠ 0) (hlen : values.length ≤ 32)
    (n : Nat) (st : SelectState) (hinv : st.Inv values)
    (hnew : drawnValue FastRand values (seedAfter FastRand n st.tmp_seed) ∉ st.ret)
    (hi : st.i < to_select) :
    ∃ m st2, st2.Inv values ∧ st2.ret.length = st.ret.length + 1 ∧
      (∀ fuel, selectLoop FastRand values to_select (fuel + m) st =
        selectLoop FastRand values to_select fuel st2) ∧
      st2.ret = (drawn FastRand values m st.tmp_seed).foldl pushNew st.ret ∧
      st2.tmp_seed = seedAfter FastRand m st.tmp_seed := by
  induction n generalizing st with
  | zero =>
    obtain ⟨st1, hstep, hinv1, hret1, hseed1⟩ :=
      selectStep_inv FastRand values st hvals hne hlen hinv
    simp only [seedAfter] at hnew
    refine ⟨1, st1, hinv1, ?_, ?_, ?_, ?_⟩
    · rw [hret1]; simp [pushNew, hnew]
    · intro fuel
      exact selectLoop_step FastRand values to_select fuel st st1 hi hstep
    · rw [hret1]; simp [drawn]
    · rw [hseed1]; simp [seedAfter]
  | succ n ih =>
    obtain ⟨st1, hstep, hinv1, hret1, hseed1⟩ :=
      selectStep_inv FastRand values st hvals hne hlen hinv
    by_cases hv : drawnValue FastRand values st.tmp_seed ∈ st.ret
    · have hsame : st1.ret = st.ret := by rw [hret1]; simp [pushNew, hv]
      have hi1 : st1.i < to_select := by
        rw [hinv1.2.2.2.2, hsame, ← hinv.2.2.2.2]; exact hi
      have hnew1 : drawnValue FastRand values (seedAfter FastRand n st1.tmp_seed) ∉ st1.ret := by
        rw [hsame, hseed1]
        simpa only [seedAfter] using hnew
      obtain ⟨m, st2, hinv2, hlen2, hrun2, hret2, hseed2⟩ := ih st1 hinv1 hnew1 hi1
      refine ⟨m + 1, st2, hinv2, ?_, ?_, ?_, ?_⟩
      · rw [hlen2, hsame]
      · intro fuel
        rw [← Nat.add_assoc, selectLoop_step FastRand values to_select (fuel + m) st st1 hi hstep]
        exact hrun2 fuel
      · rw [hret2, hseed1, hsame]
        simp [drawn, pushNew, hv]
      · rw [hseed2, hseed1]
        simp [seedAfter]
    · refine ⟨1, st1, hinv1, ?_, ?_, ?_, ?_⟩
      · rw [hret1]; simp [pushNew, hv]
      · intro fuel
        exact selectLoop_step FastRand values to_select fuel st st1 hi hstep
      · rw [hret1]; simp [drawn]
      · rw [hseed1]; simp [seedAfter]

theorem exists_unselected (values ret : List Nat) (hnodup : values.Nodup)
    (hlt : ret.length < values.length) : ∃ t, t < values.length ∧ values.getD t 0 ∉ ret := by
  by_contra hall
  push_neg at hall
  have hsub : values ⊆ ret := by
    intro v hv
    obtain ⟨t, ht, hvt⟩ := List.getElem_of_mem hv
    have := hall t ht
    rwa [List.getD_eq_getElem _ _ ht, hvt] at this
  have := (List.subperm_of_subset hnodup hsub).length_le
  omega

theorem selectLoop_terminates (FastRand : Nat → Nat × Nat) (values : List Nat)
    (to_select : Nat) (hvals : ∀ v ∈ values, v < 32) (hnodup : values.Nodup)
    (hts : to_select ≤ values.length)
    (hfair : ∀ s t, t < values.length →
      ∃ n, (FastRand (seedAfter FastRand n s)).1 % values.length = t)
    (k : Nat) (st : SelectState) (hinv : st.Inv values) (hk : st.ret.length + k = to_select) :
    ∃ F st2, (∀ fuel, F ≤ fuel →
        selectLoop FastRand values (to_select : Int) fuel st = .ok st2) ∧
      st2.Inv values ∧ st2.ret.length = to_select ∧
      ∃ m, st2.ret = (drawn FastRand values m st.tmp_seed).foldl pushNew st.ret ∧
        st2.tmp_seed = seedAfter FastRand m st.tmp_seed := by
  have hlen := length_le_32_of_nodup values hvals hnodup
  induction k generalizing st with
  | zero =>
    have hdone : ¬ st.i < (to_select : Int) := by
      rw [hinv.2.2.2.2]
      omega
    exact ⟨0, st, fun fuel _ => selectLoop_done FastRand values _ fuel st hdone, hinv,
      by omega, 0, by simp [drawn], by simp [seedAfter]⟩
  | succ k ih =>
    have hlt : st.ret.length < values.length := by omega
    have hne : values.length ≠ 0 := by omega
    have hi : st.i < (to_select : Int) := by
      rw [hinv.2.2.2.2]
      omega
    obtain ⟨t, ht, htnew⟩ := exists_unselected values st.ret hnodup hlt
    obtain ⟨n, hn⟩ := hfair st.tmp_seed t ht
    have hnew : drawnValue FastRand values (seedAfter FastRand n st.tmp_seed) ∉ st.ret := by
      unfold drawnValue
      rw [hn]
      exact htnew
    obtain ⟨m1, st1, hinv1, hlen1, hrun1, hret1, hseed1⟩ :=
      selectLoop_progress FastRand values (to_select : Int) hvals hne hlen n st hinv hnew hi
    obtain ⟨F, st2, hrun2, hinv2, hlen2, m2, hret2, hseed2⟩ := ih st1 hinv1 (by omega)
    refine ⟨F + m1, st2, ?_, hinv2, hlen2, m1 + m2, ?_, ?_⟩
    · intro fuel hfuel
      have hsplit : fuel = (fuel - m1) + m1 := by omega
      rw [hsplit, hrun1]
      exact hrun2 _ (by omega)
    · rw [hret2, hret1, hseed1, drawn_add, List.foldl_append]
    · rw [hseed2, hseed1, seedAfter_add]

theorem seedAfter_counterRand (n seed : Nat) : seedAfter counterRand n seed = seed + n := by
  induction n generalizing seed with
  | zero => rfl
  | succ n ih =>
    simp only [seedAfter, counterRand, ih]
    omega

/-- C14, amended: for every seed, every vector `values` of pairwise distinct
values below 32 and every `N <= M` with `M = values.size()` (so that both
assertions hold and no more items are asked for than there are), and for a
`FastRand` whose successive values, taken modulo `values.size()`, reach every
index from every seed, `SelectUniqueItem` returns (for every sufficient number
of passes) a vector of `k = FastRand % (M - N + 1) + N` items with
`N <= k <= M`, pairwise distinct, each an element of `values`, in the order in
which they were first drawn. -/
theorem SelectUniqueItem_selects_distinct (FastRand : Nat → Nat × Nat) (seed : Nat)
    (values : List Nat) (N M : Nat)
    (hvals : ∀ v ∈ values, v < 32) (hnodup : values.Nodup) (hNM : N ≤ M)
    (hM : M = values.length)
    (hfair : ∀ s t, t < values.length →
      ∃ n, (FastRand (seedAfter FastRand n s)).1 % values.length = t) :
    ∃ (F : Nat) (ret : List Nat) (seed2 : Nat),
      (∀ fuel, F ≤ fuel → SelectUniqueItem FastRand fuel seed values N M = .ok (ret, seed2)) ∧
      ret.length = (FastRand seed).1 % (M - N + 1) + N ∧
      N ≤ ret.length ∧ ret.length ≤ M ∧ ret.Nodup ∧ (∀ x ∈ ret, x ∈ values) ∧
      ∃ m, ret = firstSeen (drawn FastRand values m (FastRand seed).2) ∧
        seed2 = seedAfter FastRand m (FastRand seed).2 := by
  have hlen := length_le_32_of_nodup values hvals hnodup
  have hmod : (FastRand seed).1 % (M - N + 1) < M - N + 1 := Nat.mod_lt _ (by omega)
  have hd : (M - N + 1) % 2 ^ 32 = M - N + 1 := Nat.mod_eq_of_lt (by norm_num; omega)
  have hts : to_select_of (FastRand seed).1 N M =
      some (((FastRand seed).1 % (M - N + 1) + N : Nat) : Int) := by
    unfold to_select_of
    rw [hd, if_neg (by omega), toSigned_small _ (by norm_num; omega)]
  have hinv0 : (SelectState.mk 0 (List.replicate 32 0) [] (FastRand seed).2).Inv values := by
    refine ⟨by simp, ?_, List.nodup_nil, by simp, by simp⟩
    intro v hv
    have h0 : (List.replicate 32 0).getD v 0 = 0 := by
      rw [List.getD_eq_getElem?_getD, List.getElem?_replicate, if_pos hv]
      rfl
    rw [h0]
    simp
  obtain ⟨F, st2, hrun, hinv2, hlen2, m, hret2, hseed2⟩ :=
    selectLoop_terminates FastRand values ((FastRand seed).1 % (M - N + 1) + N) hvals hnodup
      (by omega) hfair ((FastRand seed).1 % (M - N + 1) + N)
      ⟨0, List.replicate 32 0, [], (FastRand seed).2⟩ hinv0 (by simp)
  refine ⟨F, st2.ret, st2.tmp_seed, ?_, hlen2, by omega, by omega, hinv2.2.2.1,
    hinv2.2.2.2.1, m, hret2, hseed2⟩
  intro fuel hfuel
  unfold SelectUniqueItem
  rw [if_neg (by simpa using hNM), if_neg (by simp; omega)]
  simp only [hts, hrun fuel hfuel]

/-- Witness for C14, amended: the call site's values `{1, 2, 3, 4}` with
`N = 1`, `M = 4`, the seed 5, and the counting stand-in for `FastRand`. -/
theorem SelectUniqueItem_selects_distinct_witness :
    ∃ (F : Nat) (ret : List Nat) (seed2 : Nat),
      (∀ fuel, F ≤ fuel →
        SelectUniqueItem counterRand fuel 5 [1, 2, 3, 4] 1 4 = .ok (ret, seed2)) ∧
      ret.length = (counterRand 5).1 % (4 - 1 + 1) + 1 ∧
      1 ≤ ret.length ∧ ret.length ≤ 4 ∧ ret.Nodup ∧ (∀ x ∈ ret, x ∈ [1, 2, 3, 4]) ∧
      ∃ m, ret = firstSeen (drawn counterRand [1, 2, 3, 4] m (counterRand 5).2) ∧
        seed2 = seedAfter counterRand m (counterRand 5).2 :=
  SelectUniqueItem_selects_distinct counterRand 5 [1, 2, 3, 4] 1 4 (by decide) (by decide)
    (by decide) (by decide)
    (by
      intro s t ht
      refine ⟨t + 3 * s, ?_⟩
      rw [seedAfter_counterRand]
      simp only [counterRand, List.length_cons, List.length_nil] at ht ⊢
      omega)

end Ford
